import Mathlib

/-!
The freeablo world simulation: `faworld/world.cpp` and `faworld/behaviour.cpp`.

A shallow embedding of the player roster, the `BasicMonsterBehaviour` decision
procedure, the save/load of the level store, the hit test `targetedActor`,
`setLevel` and the level part of `World::update`, followed by the properties
proved about them.

Modelling conventions.

* Objects are values.  An `Actor*` is modelled by the `Actor` value it points
  to, and comparing two such pointers is comparing the values.  Where a pointer
  to an actor is stored inside an actor (`mTarget`) the pointee is named by its
  id.  Aliasing between the copies held by different containers is not tracked.
* `GameLevel` objects are owned by the level store `mLevels`; a `GameLevel*`
  held elsewhere (`Actor::getLevel()`) is modelled by the key of the slot that
  owns the level, `none` being `nullptr`.
* `int32_t` arithmetic that can leave the 32 bit range is wrapped with `wrap32`.
  `Tick` (declared in `world.h`) is taken as a mathematical integer.
* Dereferencing `nullptr` is modelled by the result `none`.
-/

namespace FAWorld

/-! ## Data model -/

/-- Two's complement wrap of an integer into the `int32_t` range. -/
def wrap32 (x : Int) : Int := (x + 2147483648) % 4294967296 - 2147483648

/-- Conversion of a signed value to `size_t` (64 bit). -/
def toSizeT (x : Int) : Nat := (x % 18446744073709551616).toNat

/-- The part of `Position` read here: the tile returned by `current()`. -/
structure Position where
  current : Int × Int
  deriving DecidableEq, Repr

/-- The enumeration `ItemTarget::ActionType`. -/
inductive ActionType where
  | autoEquip
  | toCursor
  deriving DecidableEq, Repr

/-- The variant held by `Actor::mTarget`: `boost::blank`, an `Actor*` (named by
the actor's id) or an `ItemTarget` (action and the tile of the placed item). -/
inductive Target where
  | blank
  | actor (id : Int)
  | item (action : ActionType) (tile : Int × Int)
  deriving DecidableEq, Repr

/-- The part of `MovementHandler` used here: the answer of `moving()` and the
stored destination. -/
structure MovementHandler where
  moving : Bool
  mDestination : Int × Int
  deriving DecidableEq, Repr

/-- The members of `Actor` that `world.cpp` and `behaviour.cpp` read or write.
`dead` is the answer of `isDead()`, `level` the answer of `getLevel()`, `name`
the answer of `getName()`.  For a player, `cursorItem` is the name of the item
in the cursor slot of the inventory, `none` when that slot is empty. -/
structure Actor where
  id : Int
  pos : Position
  dead : Bool
  level : Option Int
  mTarget : Target
  mMoveHandler : MovementHandler
  name : String := ""
  cursorItem : Option String := none
  isTalking : Bool := false
  deriving DecidableEq, Repr

/-- A `Player` is a specialised `Actor`; nothing player specific is read here. -/
abbrev Player := Actor

/-- Modelled from the spec: `Actor::hasTarget` (actor.cpp is not part of the
sources): the actor has a target when `mTarget` is not blank. -/
def Actor.hasTarget (a : Actor) : Bool := a.mTarget != Target.blank

/-- Modelled from the spec: `MovementHandler::setDestination` (its source file is
not part of the sources) stores the destination. -/
def MovementHandler.setDestination (m : MovementHandler) (dest : Int × Int) : MovementHandler :=
  { m with mDestination := dest }

/-! ## Levels and the World -/

/-- The enumeration `Render::TileHalf`: which half of the diamond shaped tile was hit. -/
inductive TileHalf where
  | left
  | right
  deriving DecidableEq, Repr

/-- The structure `Render::Tile`: the result of projecting a screen point onto the tile grid. -/
structure Tile where
  x : Int
  y : Int
  half : TileHalf
  deriving DecidableEq, Repr

/-- Modelled from the spec: `HoverState` (hoverstate.cpp is not part of the
sources), the cached record of what the pointer currently targets: nothing, an
actor (by id) or a placed item (by tile). -/
inductive HoverState where
  | nothing
  | actor (id : Int)
  | item (tile : Int × Int)
  deriving DecidableEq, Repr

/-- Modelled from the spec: the setters of `HoverState` (`setNothingHovered`,
`setActorHovered`, `setItemHovered`) compare the newly computed target with the
cached one, store it and return whether it changed.  The result is the hover
state after the call and the returned flag. -/
def HoverState.set (cached target : HoverState) : HoverState × Bool :=
  (target, decide (cached ≠ target))

/-- The part of `PlacedItemData` read here: `getTile()` and `item().getName()`. -/
structure PlacedItemData where
  tile : Int × Int
  name : String
  deriving DecidableEq, Repr

/-- The interface of `GameLevel` consumed by `world.cpp` and `behaviour.cpp`
(gamelevel.cpp is not part of the sources, so the queries are fields).
`getActorAt` takes `size_t` coordinates; `getItemAt` is the lookup of the item
map; `hoverState` is the object behind `getHoverState()`. -/
structure GameLevel where
  levelIndex : Int
  width : Nat
  height : Nat
  upStairsPos : Nat × Nat
  downStairsPos : Nat × Nat
  previousLevel : Int
  nextLevel : Int
  isPassable : Int → Int → Bool
  getActorAt : Nat → Nat → Option Actor
  getActorById : Int → Option Actor
  getItemAt : Int → Int → Option PlacedItemData := fun _ _ => none
  hoverState : HoverState := HoverState.nothing

/-- The members of `World`.  `mLevels` is the `std::map<int32_t, GameLevel*>`,
held as the list of its pairs in iteration (ascending key) order; a slot whose
value is `none` holds `nullptr`. -/
structure World where
  mLevels : List (Int × Option GameLevel)
  mPlayers : List Player
  mCurrentPlayer : Option Player
  mTicksPassed : Int
  mNextId : Int
  targetLock : Bool := false
  simpleMove : Bool := false
  skipNextMousePress : Bool := false

/-- The constructor `World::World(exe)`: no levels, no players, no current player.  The counters
get their initial values in `world.h`, which is not part of the sources; they
are given as zero. -/
def World.create : World :=
  { mLevels := [], mPlayers := [], mCurrentPlayer := none, mTicksPassed := 0, mNextId := 0 }

/-- The level object behind a `GameLevel*`, which is the key of its slot. -/
def World.levelAt (w : World) (key : Int) : Option GameLevel :=
  match w.mLevels.find? (fun p => p.1 == key) with
  | some (_, some level) => some level
  | _ => none

/-- The dereferenced `actor->getLevel()`; `none` when the pointer is null. -/
def World.levelOf (w : World) (actor : Actor) : Option GameLevel :=
  match actor.level with
  | some key => w.levelAt key
  | none => none

/-- The method `World::getCurrentLevel`: `mCurrentPlayer->getLevel()`. -/
def World.getCurrentLevel (w : World) : Option GameLevel :=
  match w.mCurrentPlayer with
  | some player => w.levelOf player
  | none => none

/-! ## Player roster (`World::registerPlayer`, `World::deregisterPlayer`) -/

/-- The binary search of `std::upper_bound` on the range `[first, first + len)`
of `v`: the first position whose element `e` satisfies `comp value e`.  `fuel`
bounds the number of halvings; `len` halvings always suffice. -/
def upperBoundAux {α : Type} (comp : α → α → Bool) (v : List α) (value : α) :
    Nat → Nat → Nat → Nat
  | 0, first, _ => first
  | fuel + 1, first, len =>
    if len = 0 then first
    else
      let half := len / 2
      let middle := first + half
      match v[middle]? with
      | none => first
      | some m =>
        if comp value m then upperBoundAux comp v value fuel first half
        else upperBoundAux comp v value fuel (middle + 1) (len - half - 1)

/-- The call `std::upper_bound(v.begin(), v.end(), value, comp)` as an index into `v`. -/
def upperBound {α : Type} (comp : α → α → Bool) (v : List α) (value : α) : Nat :=
  upperBoundAux comp v value v.length 0 v.length

/-- The comparator lambda of `registerPlayer`: `lhs->getId() > rhs->getId()`. -/
def idGreater (lhs rhs : Player) : Bool := decide (lhs.id > rhs.id)

/-- The method `World::registerPlayer`: insert at the position found by `std::upper_bound`. -/
def World.registerPlayer (w : World) (player : Player) : World :=
  let sortedInsertPosIt := upperBound idGreater w.mPlayers player
  { w with mPlayers :=
      w.mPlayers.take sortedInsertPosIt ++ player :: w.mPlayers.drop sortedInsertPosIt }

/-- The method `World::deregisterPlayer`: erase the element found by `std::find`.  For a
player that is not in the roster the source erases `end()`, which is undefined;
the model then leaves the roster as it is. -/
def World.deregisterPlayer (w : World) (player : Player) : World :=
  { w with mPlayers := w.mPlayers.erase player }

/-- The method `World::getPlayers`. -/
def World.getPlayers (w : World) : List Player := w.mPlayers

/-- The roster invariant: ids are in descending order along the roster. -/
def SortedDesc (mPlayers : List Player) : Prop :=
  List.Pairwise (fun a b => b.id ≤ a.id) mPlayers

/-- A player with the given id, standing at the origin of no level. -/
def mkPlayer (id : Int) : Player :=
  { id := id, pos := ⟨(0, 0)⟩, dead := false, level := none, mTarget := Target.blank,
    mMoveHandler := ⟨false, (0, 0)⟩ }

/-- A world without levels whose roster holds players with the given ids. -/
def rosterWorld (ids : List Int) : World :=
  { World.create with mPlayers := ids.map mkPlayer }

/-! ## Behaviour (`behaviour.cpp`) -/

/-- The function `abs` on `int32_t`. -/
def abs32 (x : Int) : Int := wrap32 (Int.ofNat x.natAbs)

/-- The function `squaredDistance`: all arithmetic is `int32_t` arithmetic. -/
def squaredDistance (a b : Position) : Int :=
  let tmpX := abs32 (wrap32 (a.current.1 - b.current.1))
  let tmpY := abs32 (wrap32 (a.current.2 - b.current.2))
  wrap32 (wrap32 (tmpX * tmpX) + wrap32 (tmpY * tmpY))

/-- The loop of `findNearestPlayer` over the remaining roster, carrying
`nearest` and `minDistance`. -/
def findNearestPlayerLoop (actor : Actor) : List Player → Option Player → Int → Option Player
  | [], nearest, _ => nearest
  | player :: rest, nearest, minDistance =>
    let distance := squaredDistance player.pos actor.pos
    if distance < minDistance then findNearestPlayerLoop actor rest (some player) distance
    else findNearestPlayerLoop actor rest nearest minDistance

/-- The function `findNearestPlayer`, with the roster `World::get()->getPlayers()` as argument. -/
def findNearestPlayer (mPlayers : List Player) (actor : Actor) : Option Player :=
  findNearestPlayerLoop actor mPlayers none 99999999

/-- The class `FALevelGen::RandLCG` (random.h is not part of the sources), taken as a
parameter: `seed` is the constructor, mapping the seed to the generator state,
and `get` returns the drawn value together with the next state. -/
structure RandLCG where
  seed : Int → Int
  get : Int → Int × Int

/-- The state of a `BasicMonsterBehaviour`: the tick counter and the actor
behind `mActor`. -/
structure BasicMonsterBehaviour where
  mTicksSinceLastAction : Int
  mActor : Actor
  deriving DecidableEq, Repr

/-- What one call of `update` leaves behind: the behaviour (with its actor) and
the arguments of the `mMoveHandler.setDestination` calls it made, in order. -/
structure UpdateResult where
  behaviour : BasicMonsterBehaviour
  setDestinationCalls : List (Int × Int)
  deriving DecidableEq, Repr

/-- One body of the `do` loop: the candidate tile `next` drawn from generator
state `r`, and the state after the four draws.  The two draws of one product
are taken left to right; the C++ remainder truncates (`Int.tmod`). -/
def wanderCandidate (rng : RandLCG) (current : Int × Int) (r : Int) : (Int × Int) × Int :=
  let d1 := rng.get r
  let d2 := rng.get d1.2
  let d3 := rng.get d2.2
  let d4 := rng.get d3.2
  ((wrap32 (current.1 + (Int.tmod d1.1 3 - 1) * (Int.tmod d2.1 3 + 1)),
    wrap32 (current.2 + (Int.tmod d3.1 3 - 1) * (Int.tmod d4.1 3 + 1))), d4.2)

/-- The `do { ... } while (its < 10 && ...)` loop, entered with counter `its` and
generator state `r`; returns the final `its` and `next`.  The first argument
bounds the number of iterations; started as `wanderLoop .. 10 0` the bound is
never reached because the loop condition stops at `its = 10`. -/
def wanderLoop (rng : RandLCG) (isPassable : Int → Int → Bool) (current : Int × Int) :
    Nat → Nat → Int → Nat × (Int × Int)
  | 0, its, _ => (its, current)
  | fuel + 1, its, r =>
    let c := wanderCandidate rng current r
    if its + 1 < 10 && (!isPassable c.1.1 c.1.2 || c.1 == current)
    then wanderLoop rng isPassable current fuel (its + 1) c.2
    else (its + 1, c.1)

/-- The method `BasicMonsterBehaviour::update`.  `ticksInPeriod` is the value of
`World::getTicksInPeriod(0.5f)`; `std::pow(5, 2)` and `std::pow(100, 2)` are the
exact doubles 25 and 10000.  The result is `none` when a null pointer is
dereferenced (`nearest` or the actor's level). -/
def BasicMonsterBehaviour.update (rng : RandLCG) (ticksInPeriod : Int) (w : World)
    (b : BasicMonsterBehaviour) : Option UpdateResult :=
  let ticks := b.mTicksSinceLastAction + 1
  let mActor := b.mActor
  if !mActor.dead then
    match findNearestPlayer w.getPlayers mActor with
    | none => none
    | some nearest =>
      let dist := squaredDistance nearest.pos mActor.pos
      if dist ≤ 25 then
        some ⟨⟨ticks, { mActor with mTarget := Target.actor nearest.id }⟩, []⟩
      else if dist ≥ 10000 then
        some ⟨⟨ticks, mActor⟩, []⟩
      else if ticks > ticksInPeriod && !mActor.hasTarget && !mActor.mMoveHandler.moving then
        let r := rng.seed (ticks + mActor.id + mActor.pos.current.1)
        let d := rng.get r
        if Int.tmod d.1 100 > 80 then
          match w.levelOf mActor with
          | none => none
          | some level =>
            let res := wanderLoop rng level.isPassable mActor.pos.current 10 0 d.2
            if res.1 < 10 then
              some ⟨⟨0, { mActor with
                            mMoveHandler := mActor.mMoveHandler.setDestination res.2 }⟩, [res.2]⟩
            else
              some ⟨⟨0, mActor⟩, []⟩
        else some ⟨⟨ticks, mActor⟩, []⟩
      else some ⟨⟨ticks, mActor⟩, []⟩
  else some ⟨⟨ticks, mActor⟩, []⟩

/-- The condition under which `update` reaches the probability draw of the wander
branch and the draw passes: the actor is alive, the nearest player is neither
within the engagement radius nor beyond the freeze radius, the wander guard
holds and the first draw modulo 100 exceeds 80. -/
def wanderDrawPassed (rng : RandLCG) (ticksInPeriod : Int) (w : World)
    (b : BasicMonsterBehaviour) : Bool :=
  !b.mActor.dead &&
  match findNearestPlayer w.getPlayers b.mActor with
  | none => false
  | some nearest =>
    decide (25 < squaredDistance nearest.pos b.mActor.pos) &&
    decide (squaredDistance nearest.pos b.mActor.pos < 10000) &&
    decide (b.mTicksSinceLastAction + 1 > ticksInPeriod) &&
    !b.mActor.hasTarget && !b.mActor.mMoveHandler.moving &&
    decide (Int.tmod (rng.get (rng.seed
      (b.mTicksSinceLastAction + 1 + b.mActor.id + b.mActor.pos.current.1))).1 100 > 80)

/-- The candidate tile drawn by iteration `n` (counted from 0) of the wander
loop entered with generator state `r`. -/
def nthCandidate (rng : RandLCG) (current : Int × Int) : Nat → Int → Int × Int
  | 0, r => (wanderCandidate rng current r).1
  | n + 1, r => nthCandidate rng current n (wanderCandidate rng current r).2

/-- A candidate tile is acceptable when it is passable on the actor's level and
differs from the actor's current position. -/
def acceptable (isPassable : Int → Int → Bool) (current : Int × Int) (c : Int × Int) : Bool :=
  isPassable c.1 c.2 && c != current

/-! ## Save and load (`World::save`, the loading constructor of `World`) -/

/-- One value in the save stream, tagged with the type it was saved as. -/
inductive SaveItem where
  | u32 (n : Nat)
  | i32 (n : Int)
  | bool (b : Bool)
  deriving DecidableEq, Repr

/-- The serialized form of a level, `GameLevel::save` and the loading constructor
`GameLevel(loader)` (gamelevel.cpp is not part of the sources), taken as a
parameter.  `load` consumes a prefix of the stream and returns the rest. -/
structure LevelCodec where
  save : GameLevel → List SaveItem
  load : List SaveItem → Option (GameLevel × List SaveItem)

/-- The assignment `mLevels[key] = level` on the ordered map. -/
def assignLevel : List (Int × Option GameLevel) → Int → Option GameLevel →
    List (Int × Option GameLevel)
  | [], key, level => [(key, level)]
  | (k, v) :: rest, key, level =>
    if key < k then (key, level) :: (k, v) :: rest
    else if key = k then (key, level) :: rest
    else (k, v) :: assignLevel rest key level

/-- The loop of `World::save` over the pairs of `mLevels`. -/
def saveLevels (codec : LevelCodec) : List (Int × Option GameLevel) → List SaveItem
  | [] => []
  | (key, none) :: rest =>
    SaveItem.i32 key :: SaveItem.bool false :: saveLevels codec rest
  | (key, some level) :: rest =>
    SaveItem.i32 key :: SaveItem.bool true :: (codec.save level ++ saveLevels codec rest)

/-- The method `World::save`: the level count as `uint32_t`, the level slots, the id of the
current player and `mNextId`.  `none` when `mCurrentPlayer` is null. -/
def World.save (codec : LevelCodec) (w : World) : Option (List SaveItem) :=
  match w.mCurrentPlayer with
  | none => none
  | some player =>
    some (SaveItem.u32 (w.mLevels.length % 4294967296) ::
      (saveLevels codec w.mLevels ++ [SaveItem.i32 player.id, SaveItem.i32 w.mNextId]))

/-- The loop of `World::getActorById`: the first non-null answer of the present levels, in
map order. -/
def getActorByIdIn : List (Int × Option GameLevel) → Int → Option Actor
  | [], _ => none
  | (_, none) :: rest, id => getActorByIdIn rest id
  | (_, some level) :: rest, id =>
    match level.getActorById id with
    | some actor => some actor
    | none => getActorByIdIn rest id

/-- The method `World::getActorById`. -/
def World.getActorById (w : World) (id : Int) : Option Actor :=
  getActorByIdIn w.mLevels id

/-- The `for` loop of the loading constructor: `numLevels` slots are read from
the stream into the map.  `none` when the stream does not hold the expected
items. -/
def loadLevels (codec : LevelCodec) :
    Nat → List SaveItem → List (Int × Option GameLevel) →
      Option (List (Int × Option GameLevel) × List SaveItem)
  | 0, stream, levels => some (levels, stream)
  | n + 1, SaveItem.i32 levelIndex :: SaveItem.bool hasThisLevel :: stream, levels =>
    if hasThisLevel then
      match codec.load stream with
      | some (level, stream') =>
        loadLevels codec n stream' (assignLevel levels levelIndex (some level))
      | none => none
    else loadLevels codec n stream (assignLevel levels levelIndex none)
  | _ + 1, _, _ => none

/-- The constructor `World::World(loader, exe)`, after the delegated `World(exe)`.  The deferred
functions run by `runFunctionsToRunAtEnd` relink pointers and have no
counterpart on values. -/
def World.load (codec : LevelCodec) : List SaveItem → Option World
  | SaveItem.u32 numLevels :: stream =>
    match loadLevels codec numLevels stream [] with
    | some (levels, SaveItem.i32 playerId :: SaveItem.i32 nextId :: _) =>
      some { World.create with
             mLevels := levels, mNextId := nextId,
             mCurrentPlayer := getActorByIdIn levels playerId }
    | _ => none
  | _ => none

/-- The `std::map` invariant on `mLevels`: keys strictly ascending. -/
def KeysAscending (levels : List (Int × Option GameLevel)) : Prop :=
  List.Pairwise (fun a b => a.1 < b.1) levels

/-- The presence flag of every slot: the pairs of level index and whether the
slot holds a level. -/
def presenceFlags (levels : List (Int × Option GameLevel)) : List (Int × Bool) :=
  levels.map (fun p => (p.1, p.2.isSome))

/-- The assumption that each level of the store round-trips through its own
serialized form, whatever follows it in the stream. -/
def LevelsRoundTrip (codec : LevelCodec) (levels : List (Int × Option GameLevel)) : Prop :=
  ∀ key level, (key, some level) ∈ levels →
    ∀ rest, codec.load (codec.save level ++ rest) = some (level, rest)

/-! ## Hit testing (`World::targetedActor`) -/

/-- The lambda `actorStayingAt` of `targetedActor`, on the current level and the
current player.  `width()` and `height()` are cast to `int32_t`; the coordinates
are converted to `size_t` by `World::getActorAt`. -/
def actorStayingAt (level : GameLevel) (currentPlayer : Player) (x y : Int) : Option Actor :=
  if x ≥ wrap32 level.width || y ≥ wrap32 level.height then none
  else
    match level.getActorAt (toSizeT x) (toSizeT y) with
    | some actor => if !actor.dead && actor != currentPlayer then some actor else none
    | none => none

/-- The method `World::targetedActor` on the tile that the renderer projected the screen
point to.  The outer `none` is the dereference of a null current player or
current level; the inner option is the returned `Actor*`.  Tile coordinates are
far from the `int32_t` limits, so the increments are exact. -/
def World.targetedActor (w : World) (tile : Tile) : Option (Option Actor) :=
  match w.mCurrentPlayer, w.getCurrentLevel with
  | some currentPlayer, some level =>
    match actorStayingAt level currentPlayer tile.x tile.y with
    | some actor => some (some actor)
    | none =>
      match actorStayingAt level currentPlayer (tile.x + 1) (tile.y + 1) with
      | some actor => some (some actor)
      | none =>
        match (if tile.half = TileHalf.right
               then actorStayingAt level currentPlayer (tile.x + 1) tile.y else none) with
        | some actor => some (some actor)
        | none =>
          match (if tile.half = TileHalf.left
                 then actorStayingAt level currentPlayer tile.x (tile.y + 1) else none) with
          | some actor => some (some actor)
          | none => some none
  | _, _ => none

/-- Tile `t` of the level holds the actor `a`, and `a` can be targeted: it is not
dead and is not the current player. -/
def HoldsTargetable (level : GameLevel) (currentPlayer : Player) (t : Int × Int)
    (a : Actor) : Prop :=
  t.1 < wrap32 level.width ∧ t.2 < wrap32 level.height ∧
    level.getActorAt (toSizeT t.1) (toSizeT t.2) = some a ∧ a.dead = false ∧ a ≠ currentPlayer

/-- The lateral neighbour on the side of the half that was hit. -/
def lateralTile (tile : Tile) : Int × Int :=
  match tile.half with
  | TileHalf.right => (tile.x + 1, tile.y)
  | TileHalf.left => (tile.x, tile.y + 1)

/-- The tiles tested for a projected tile, in priority order: the tile itself,
the tile diagonally behind it, and the lateral neighbour. -/
def candidateTiles (tile : Tile) : List (Int × Int) :=
  [(tile.x, tile.y), (tile.x + 1, tile.y + 1), lateralTile tile]

/-! ## Level transition (`World::getLevel`, `World::setLevel`) -/

/-- Calls to the external collaborators made by the level transition code. -/
inductive WorldEvent where
  | generate (width height level previous next : Int)
  | playMusic (track : String)
  | wrongLevel (level : Nat)
  deriving DecidableEq, Repr

/-- The function `FALevelGen::generate` without its `DiabloExe` argument (levelgen.h is not
part of the sources), taken as a parameter. -/
abbrev LevelGenerator := Int → Int → Int → Int → Int → GameLevel

/-- The assignment `p->second = level` through the iterator found for `key`. -/
def setSlot (levels : List (Int × Option GameLevel)) (key : Int) (level : GameLevel) :
    List (Int × Option GameLevel) :=
  levels.map (fun p => if p.1 == key then (p.1, some level) else p)

/-- The method `World::getLevel`: the world after the call, the returned level (`none` is
`nullptr`) and the generator calls made.  The `size_t` argument is converted to
the `int32_t` key type by `find`; `level - 1` and `level + 1` are computed in
`size_t`. -/
def World.getLevel (generate : LevelGenerator) (w : World) (level : Nat) :
    World × Option GameLevel × List WorldEvent :=
  match w.mLevels.find? (fun p => p.1 == wrap32 level) with
  | none => (w, none, [])
  | some (_, some gameLevel) => (w, some gameLevel, [])
  | some (_, none) =>
    let previous : Int := toSizeT (level - 1)
    let next : Int := toSizeT (level + 1)
    let gameLevel := generate 100 100 level previous next
    ({ w with mLevels := setSlot w.mLevels (wrap32 level) gameLevel }, some gameLevel,
      [WorldEvent.generate 100 100 level previous next])

/-- The method `World::playLevelMusic`. -/
def playLevelMusic (level : Nat) : WorldEvent :=
  if level = 0 then WorldEvent.playMusic "music/dtowne.wav"
  else if level ≤ 4 then WorldEvent.playMusic "music/dlvla.wav"
  else if level ≤ 8 then WorldEvent.playMusic "music/dlvlb.wav"
  else if level ≤ 12 then WorldEvent.playMusic "music/dlvlc.wav"
  else if level ≤ 16 then WorldEvent.playMusic "music/dlvld.wav"
  else WorldEvent.wrongLevel level

/-- Modelled from the spec: `Actor::teleport` (actor.cpp is not part of the
sources) puts the actor on the given level at the given position. -/
def Actor.teleport (a : Actor) (levelKey : Int) (pos : Position) : Actor :=
  { a with level := some levelKey, pos := pos }

/-- The method `World::setLevel`: the world after the call and the collaborator calls made.
`none` when `mCurrentPlayer`, its level pointer target or the level returned by
`getLevel` is dereferenced while null. -/
def World.setLevel (generate : LevelGenerator) (w : World) (levelNum : Int) :
    Option (World × List WorldEvent) :=
  if levelNum ≥ wrap32 w.mLevels.length || levelNum < 0 then some (w, [])
  else
    match w.mCurrentPlayer with
    | none => none
    | some player =>
      let onThatLevel : Option Bool :=
        match player.level with
        | none => some false
        | some key =>
          match w.levelAt key with
          | some current => some (current.levelIndex == levelNum)
          | none => none
      match onThatLevel with
      | none => none
      | some true => some (w, [])
      | some false =>
        match w.getLevel generate levelNum.toNat with
        | (_, none, _) => none
        | (w', some level, events) =>
          let pos : Position := ⟨(wrap32 level.upStairsPos.1, wrap32 level.upStairsPos.2)⟩
          some ({ w' with mCurrentPlayer := some (player.teleport (wrap32 levelNum.toNat) pos) },
            events ++ [playLevelMusic levelNum.toNat])

/-! ## The level part of `World::update` -/

/-- The `for` loop of `World::update` over the roster: `done` is the set of
levels already updated, `calls` the `level->update(noclip)` calls made so far,
in order.  The per-level update itself belongs to `GameLevel`; it is recorded,
and taken not to move roster players between levels. -/
def updateLevelsLoop : List Player → List Int → List Int → List Int × List Int
  | [], done, calls => (done, calls)
  | player :: rest, done, calls =>
    match player.level with
    | some level =>
      if !done.contains level then updateLevelsLoop rest (level :: done) (calls ++ [level])
      else updateLevelsLoop rest done calls
    | none => updateLevelsLoop rest done calls

/-- The method `World::update` up to the end of the roster loop: the world with the tick
counter advanced, and the levels whose update was invoked, in call order. -/
def World.updateLevels (w : World) : World × List Int :=
  ({ w with mTicksPassed := w.mTicksPassed + 1 }, (updateLevelsLoop w.mPlayers [] []).2)

/-! ## Definitions for the later behaviour properties -/

/-- The squared Euclidean tile distance `dx*dx + dy*dy` over unbounded integers. -/
def squaredEuclidean (a b : Position) : Int :=
  (a.current.1 - b.current.1) * (a.current.1 - b.current.1) +
    (a.current.2 - b.current.2) * (a.current.2 - b.current.2)

/-- A position whose coordinates are small enough for the `int32_t` arithmetic
of `squaredDistance` between two such positions to be exact. -/
def Position.Small (p : Position) : Prop :=
  -16383 ≤ p.current.1 ∧ p.current.1 ≤ 16383 ∧ -16383 ≤ p.current.2 ∧ p.current.2 ≤ 16383

/-- A position inside a level of 100 by 100 tiles: both coordinates from 0 up to 99. -/
def Position.InLevel (p : Position) : Prop :=
  0 ≤ p.current.1 ∧ p.current.1 < 100 ∧ 0 ≤ p.current.2 ∧ p.current.2 < 100

instance Position.decidableInLevel (p : Position) : Decidable p.InLevel := by
  unfold Position.InLevel
  infer_instance

/-- The wander decision of `update` (the body of its last `else if`), for the
counter value `ticks` after the increment: the destination handed to
`setDestination`, or `none` when the draw fails or the loop reaches its cap. -/
def wanderDecision (rng : RandLCG) (isPassable : Int → Int → Bool) (ticks : Int)
    (actor : Actor) : Option (Int × Int) :=
  let d := rng.get (rng.seed (ticks + actor.id + actor.pos.current.1))
  if Int.tmod d.1 100 > 80 then
    let res := wanderLoop rng isPassable actor.pos.current 10 0 d.2
    if res.1 < 10 then some res.2 else none
  else none

/-- The condition under which `update` reaches the wander decision: the actor is
alive, the nearest player is neither within the engagement radius nor beyond
the freeze radius, and the wander guard (counter above the threshold, no
target, not moving) holds. -/
def wanderReached (ticksInPeriod : Int) (w : World) (b : BasicMonsterBehaviour) : Bool :=
  !b.mActor.dead &&
  match findNearestPlayer w.getPlayers b.mActor with
  | none => false
  | some nearest =>
    decide (25 < squaredDistance nearest.pos b.mActor.pos) &&
    decide (squaredDistance nearest.pos b.mActor.pos < 10000) &&
    decide (b.mTicksSinceLastAction + 1 > ticksInPeriod) &&
    !b.mActor.hasTarget && !b.mActor.mMoveHandler.moving

/-! ## Level store construction and `World::changeLevel` -/

/-- The slot of the level store for a key: `none` when the map has no such key,
`some none` when the slot is reserved but not yet generated, `some (some l)`
when it holds the level `l`. -/
def World.slot (w : World) (key : Int) : Option (Option GameLevel) :=
  (w.mLevels.find? (fun p => p.1 == key)).map Prod.snd

/-- The method `World::generateLevels`: slot 0 gets the town level, slots 1 to 16
are reserved and left to be generated on demand.  The town level is built from
asset files and populated with the NPC actors; it is taken as an argument. -/
def World.generateLevels (townLevel : GameLevel) (w : World) : World :=
  let withTown := assignLevel w.mLevels 0 (some townLevel)
  { w with mLevels :=
             (List.range 16).foldl (fun m i => assignLevel m ((i : Int) + 1) none) withTown }

/-- The method `World::insertLevel`: `mLevels[level] = gameLevel`, the `size_t`
index being converted to the `int32_t` key. -/
def World.insertLevel (w : World) (level : Nat) (gameLevel : Option GameLevel) : World :=
  { w with mLevels := assignLevel w.mLevels (wrap32 level) gameLevel }

/-- The assignment of `World::addCurrentPlayer` (the signal connection aside). -/
def World.addCurrentPlayer (w : World) (player : Player) : World :=
  { w with mCurrentPlayer := some player }

/-- The method `World::changeLevel`.  `none` when the current player or its level
is dereferenced while null. -/
def World.changeLevel (generate : LevelGenerator) (w : World) (up : Bool) :
    Option (World × List WorldEvent) :=
  match w.getCurrentLevel with
  | none => none
  | some current =>
    let nextLevelIndex := if up then current.previousLevel else current.nextLevel
    match w.setLevel generate nextLevelIndex with
    | none => none
    | some (w', events) =>
      match w'.mCurrentPlayer with
      | none => none
      | some player =>
        match player.level, w'.getCurrentLevel with
        | some key, some level =>
          let stairs := if up then level.downStairsPos else level.upStairsPos
          let pos : Position := ⟨(wrap32 stairs.1, wrap32 stairs.2)⟩
          some ({ w' with mCurrentPlayer := some (player.teleport key pos) }, events)
        | _, _ => none

/-- The store has the indices `0 .. n-1` as its keys, in order, as after
`generateLevels`. -/
def DenseKeys (levels : List (Int × Option GameLevel)) : Prop :=
  levels.map Prod.fst = (List.range levels.length).map Int.ofNat

/-! ## Hover state (`World::updateHover`) and mouse input -/

/-- Calls made by the hover and mouse code on the GUI manager and on the
current player. -/
inductive InputEvent where
  | setDescription (text : String)
  | clearDescription
  | dropItem (tile : Int × Int)
  deriving DecidableEq, Repr

/-- The hover state cached on the current level, `none` when the current player
or its level is null. -/
def World.currentHover (w : World) : Option HoverState :=
  match w.getCurrentLevel with
  | some level => some level.hoverState
  | none => none

/-- A setter call on `getHoverState()`, the hover state of the current level:
the world after the call and the returned flag.  When the target equals the
cached one nothing is stored. -/
def World.setHover (w : World) (target : HoverState) : Option (World × Bool) :=
  match w.mCurrentPlayer with
  | none => none
  | some player =>
    match player.level with
    | none => none
    | some key =>
      match w.levelAt key with
      | none => none
      | some level =>
        let r := level.hoverState.set target
        if r.2 then
          some ({ w with mLevels := setSlot w.mLevels key { level with hoverState := r.1 } }, true)
        else some (w, false)

/-- The lambda `nothingHovered` of `updateHover`. -/
def World.nothingHovered (w : World) : Option (World × List InputEvent) :=
  match w.setHover HoverState.nothing with
  | none => none
  | some (w', changed) =>
    some (w', if changed then [InputEvent.setDescription ""] else [])

/-- The method `World::targetedItem` on the projected tile: the item placed on
that tile of the current level. -/
def World.targetedItem (w : World) (tile : Tile) : Option (Option PlacedItemData) :=
  match w.mCurrentPlayer, w.getCurrentLevel with
  | some _, some level => some (level.getItemAt tile.x tile.y)
  | _, _ => none

/-- The method `World::updateHover` on the tile the mouse position projects to:
the world after the call and the GUI calls made, in order. -/
def World.updateHover (w : World) (tile : Tile) : Option (World × List InputEvent) :=
  match w.mCurrentPlayer with
  | none => none
  | some player =>
    match player.cursorItem with
    | some name =>
      match w.nothingHovered with
      | none => none
      | some (w', events) => some (w', InputEvent.setDescription name :: events)
    | none =>
      match w.targetedActor tile with
      | none => none
      | some (some actor) =>
        match w.setHover (HoverState.actor actor.id) with
        | none => none
        | some (w', changed) =>
          some (w', if changed then [InputEvent.setDescription actor.name] else [])
      | some none =>
        match w.targetedItem tile with
        | none => none
        | some (some item) =>
          match w.setHover (HoverState.item item.tile) with
          | none => none
          | some (w', changed) =>
            some (w', if changed then [InputEvent.setDescription item.name] else [])
        | some none => w.nothingHovered

/-- The hover target that `updateHover` computes for a tile: nothing while the
current player holds an item on the cursor, else the targeted actor, else the
targeted item, else nothing. -/
def World.hoverTarget (w : World) (tile : Tile) : Option HoverState :=
  match w.mCurrentPlayer with
  | none => none
  | some player =>
    match player.cursorItem with
    | some _ => some HoverState.nothing
    | none =>
      match w.targetedActor tile with
      | none => none
      | some (some actor) => some (HoverState.actor actor.id)
      | some none =>
        match w.targetedItem tile with
        | none => none
        | some (some item) => some (HoverState.item item.tile)
        | some none => some HoverState.nothing

/-- The method `World::onMouseRelease`.  `none` when the current player is null. -/
def World.onMouseRelease (w : World) : Option World :=
  match w.mCurrentPlayer with
  | none => none
  | some player =>
    some { w with skipNextMousePress := false, targetLock := false, simpleMove := false,
                  mCurrentPlayer := some { player with isTalking := false } }

/-- The last block of `onMouseDown`: clear the target, head for the clicked tile
and remember that a simple move is in progress. -/
def World.startSimpleMove (w : World) (player : Player) (clickedTile : Tile) : World :=
  { w with simpleMove := true,
           mCurrentPlayer := some { player with
             mTarget := Target.blank,
             mMoveHandler := player.mMoveHandler.setDestination (clickedTile.x, clickedTile.y) } }

/-- The method `World::onMouseDown`.  `clickedTile` is the projection of the mouse
position, `clickedTileShifted` that of the position shifted by half the cursor
size; `dropItem` is `Player::dropItem` (the player after the call and its
result) and `isInventoryShown` the answer of the GUI manager, both outside the
sources.  The result is the world after the call and the calls made on the GUI
manager and on `dropItem`; `none` when a null pointer is dereferenced. -/
def World.onMouseDown (dropItem : Player → Int × Int → Player × Bool) (isInventoryShown : Bool)
    (w : World) (clickedTile clickedTileShifted : Tile) : Option (World × List InputEvent) :=
  if w.skipNextMousePress then some (w, [])
  else
    match w.mCurrentPlayer with
    | none => none
    | some player =>
      let targetWasLocked := w.targetLock
      let w1 := { w with targetLock := true }
      if !targetWasLocked && player.cursorItem.isSome then
        let r := dropItem player (clickedTileShifted.x, clickedTileShifted.y)
        some ({ w1 with mCurrentPlayer := some r.1 },
          InputEvent.dropItem (clickedTileShifted.x, clickedTileShifted.y) ::
            (if r.2 then [InputEvent.clearDescription] else []))
      else if !targetWasLocked then
        match w1.targetedActor clickedTile with
        | none => none
        | some (some clickedActor) =>
          some ({ w1 with mCurrentPlayer :=
                            some { player with mTarget := Target.actor clickedActor.id } }, [])
        | some none =>
          match w1.targetedItem clickedTile with
          | none => none
          | some (some item) =>
            let action := if isInventoryShown then ActionType.toCursor else ActionType.autoEquip
            some ({ w1 with mCurrentPlayer :=
                              some { player with mTarget := Target.item action item.tile } }, [])
          | some none => some (w1.startSimpleMove player clickedTile, [])
      else if w.simpleMove then some (w1.startSimpleMove player clickedTile, [])
      else some (w1, [])

/-! ## Example objects used by the concrete statements -/

/-- A generator that replays a fixed script of draws; its state is the position
in the script and every seed starts at position 0. -/
def scriptedRng (script : List Int) : RandLCG :=
  { seed := fun _ => 0, get := fun i => (script.getD i.toNat 0, i + 1) }

/-- A 100 by 100 level with index `index`, the given passability and no actors. -/
def emptyLevel (index : Int) (isPassable : Int → Int → Bool) : GameLevel :=
  { levelIndex := index, width := 100, height := 100, upStairsPos := (25, 29),
    downStairsPos := (75, 68), previousLevel := index - 1, nextLevel := index + 1,
    isPassable := isPassable, getActorAt := fun _ _ => none, getActorById := fun _ => none }

/-- An actor with the given id standing at `(x, y)` on the level in slot 1. -/
def actorAt (id x y : Int) : Actor :=
  { id := id, pos := ⟨(x, y)⟩, dead := false, level := some 1, mTarget := Target.blank,
    mMoveHandler := ⟨false, (0, 0)⟩ }

/-- A world whose slot 1 holds a level with the given passability and whose
roster is `players`. -/
def worldWith (isPassable : Int → Int → Bool) (players : List Player) : World :=
  { mLevels := [(0, none), (1, some (emptyLevel 1 isPassable))], mPlayers := players,
    mCurrentPlayer := players.head?, mTicksPassed := 0, mNextId := 100 }

/-- A script whose first draw passes the probability test, whose next nine
candidates are all the tile at offset `(1, 1)` and whose tenth candidate is the
tile at offset `(3, 3)`. -/
def wallScript : List Int :=
  81 :: ((List.range 36).map (fun i => if i % 2 = 0 then 2 else 0) ++ [2, 2, 2, 2])

/-- Passability of a level whose only wall is the tile `(1, 1)`. -/
def wallAtOneOne (x y : Int) : Bool := !(x == 1 && y == 1)

/-- A level that knows player 1 (at `(25, 29)`) and no other actor, and whose
serialized form is its level index. -/
def savedLevel (index : Int) : GameLevel :=
  { levelIndex := index, width := 100, height := 100, upStairsPos := (25, 29),
    downStairsPos := (75, 68), previousLevel := index - 1, nextLevel := index + 1,
    isPassable := fun _ _ => true, getActorAt := fun _ _ => none,
    getActorById := fun id => if id = 1 then some (actorAt 1 25 29) else none }

/-- A codec for levels of the form `savedLevel index`. -/
def indexCodec : LevelCodec :=
  { save := fun level => [SaveItem.i32 level.levelIndex],
    load := fun stream =>
      match stream with
      | SaveItem.i32 index :: rest => some (savedLevel index, rest)
      | _ => none }

/-- A world with levels 0 and 2 generated, slot 1 reserved and player 1 current. -/
def savedWorld : World :=
  { mLevels := [(0, some (savedLevel 0)), (1, none), (2, some (savedLevel 2))],
    mPlayers := [actorAt 1 25 29], mCurrentPlayer := some (actorAt 1 25 29),
    mTicksPassed := 5, mNextId := 42 }

/-- A dead actor, placed on tile `(3, 3)` of `hitTestLevel`. -/
def deadActor : Actor :=
  { id := 8, pos := ⟨(3, 3)⟩, dead := true, level := some 1, mTarget := Target.blank,
    mMoveHandler := ⟨false, (3, 3)⟩ }

/-- A level with a dead actor on `(3, 3)` and a live actor on `(4, 4)`. -/
def hitTestLevel : GameLevel :=
  { levelIndex := 1, width := 100, height := 100, upStairsPos := (25, 29),
    downStairsPos := (75, 68), previousLevel := 0, nextLevel := 2,
    isPassable := fun _ _ => true,
    getActorAt := fun x y =>
      if x = 3 ∧ y = 3 then some deadActor
      else if x = 4 ∧ y = 4 then some (actorAt 9 4 4) else none,
    getActorById := fun _ => none }

/-- A world whose current player (id 1) stands on `hitTestLevel`. -/
def hitTestWorld : World :=
  { mLevels := [(0, none), (1, some hitTestLevel)], mPlayers := [actorAt 1 10 10],
    mCurrentPlayer := some (actorAt 1 10 10), mTicksPassed := 0, mNextId := 100 }

/-- A generator that returns the empty, everywhere passable level. -/
def plainGenerator : LevelGenerator :=
  fun _ _ level _ _ => emptyLevel level (fun _ _ => true)

/-- The player with id 1 standing at `(10, 10)` on the level in slot 0. -/
def townPlayer : Player := { actorAt 1 10 10 with level := some 0 }

/-- A world after `generateLevels` with an empty town, the current player in it. -/
def townWorld : World :=
  (World.create.generateLevels (emptyLevel 0 (fun _ _ => true))).addCurrentPlayer townPlayer

/-- A town level whose down link is 20. -/
def farLinkTown : GameLevel :=
  { emptyLevel 0 (fun _ _ => true) with nextLevel := 20 }

/-- A world built with `generateLevels` and `insertLevel(20, ..)`: slots 0 to 16
and 20, eighteen in all, the current player in the town. -/
def sparseWorld : World :=
  ((World.create.generateLevels farLinkTown).insertLevel 20
    (some (emptyLevel 20 (fun _ _ => true)))).addCurrentPlayer townPlayer

/-- The hit test world with the current player holding a sword on the cursor. -/
def cursorWorld : World :=
  { hitTestWorld with mCurrentPlayer := some { actorAt 1 10 10 with cursorItem := some "Sword" } }

/-- A `dropItem` that always succeeds and empties the cursor slot. -/
def dropAlways (player : Player) (_tile : Int × Int) : Player × Bool :=
  ({ player with cursorItem := none }, true)

/-- The hit test world in the middle of a simple move: the button is held
(targetLock), a simple move is in progress and the current player still carries
the actor target 9. -/
def lockedMoveWorld : World :=
  { hitTestWorld with
    targetLock := true, simpleMove := true,
    mCurrentPlayer := some { actorAt 1 10 10 with mTarget := Target.actor 9 } }

/-! ## Theorems: player roster -/

theorem getElem?_split {α : Type} {v : List α} {i : Nat} {m : α} (h : v[i]? = some m) :
    v = v.take i ++ m :: v.drop (i + 1) := by
  obtain ⟨hi, hm⟩ := List.getElem?_eq_some.mp h
  have h1 : v.drop i = m :: v.drop (i + 1) := by
    rw [← hm]; exact List.drop_eq_getElem_cons hi
  calc v = v.take i ++ v.drop i := (List.take_append_drop i v).symm
    _ = v.take i ++ m :: v.drop (i + 1) := by rw [h1]

theorem take_succ_of_getElem? {α : Type} {v : List α} {i : Nat} {m : α} (h : v[i]? = some m) :
    v.take (i + 1) = v.take i ++ [m] := by
  rw [List.take_succ, h]; rfl

/-- The binary search returns a position that separates the elements `e` with
`comp value e` false from those where it is true, on a range that is
partitioned that way. -/
theorem upperBoundAux_spec {α : Type} (comp : α → α → Bool) (R : α → α → Prop)
    (v : List α) (value : α) (hv : v.Pairwise R)
    (hlo : ∀ a b, R a b → comp value b = false → comp value a = false)
    (hhi : ∀ a b, R a b → comp value a = true → comp value b = true) :
    ∀ (fuel first len : Nat), len ≤ fuel → first + len ≤ v.length →
      (∀ a ∈ v.take first, comp value a = false) →
      (∀ a ∈ v.drop (first + len), comp value a = true) →
      let r := upperBoundAux comp v value fuel first len
      r ≤ v.length ∧ (∀ a ∈ v.take r, comp value a = false) ∧
        (∀ a ∈ v.drop r, comp value a = true) := by
  intro fuel
  induction fuel with
  | zero =>
    intro first len hl hb h1 h2
    have : len = 0 := by omega
    subst this
    simp only [upperBoundAux]
    exact ⟨by omega, h1, by simpa using h2⟩
  | succ n ih =>
    intro first len hl hb h1 h2
    simp only [upperBoundAux]
    by_cases hlen : len = 0
    · subst hlen
      simp only [if_true]
      exact ⟨by omega, h1, by simpa using h2⟩
    · simp only [hlen, if_false]
      have hmid : first + len / 2 < v.length := by
        have : len / 2 < len := Nat.div_lt_self (Nat.pos_of_ne_zero hlen) (by decide)
        omega
      have hget : v[first + len / 2]? = some v[first + len / 2] := List.getElem?_eq_getElem hmid
      rw [hget]
      simp only
      have hsplit := getElem?_split hget
      have hpw : (v.take (first + len / 2) ++ v[first + len / 2] :: v.drop (first + len / 2 + 1)).Pairwise R := by
        rw [← hsplit]; exact hv
      rw [List.pairwise_append] at hpw
      obtain ⟨_, hpw2, hpw3⟩ := hpw
      rw [List.pairwise_cons] at hpw2
      by_cases hc : comp value v[first + len / 2] = true
      · simp only [hc, if_true]
        apply ih first (len / 2) (by omega) (by omega) h1
        intro a ha
        have hd : v.drop (first + len / 2) = v[first + len / 2] :: v.drop (first + len / 2 + 1) :=
          List.drop_eq_getElem_cons hmid
        rw [hd] at ha
        rcases List.mem_cons.mp ha with rfl | ha
        · exact hc
        · exact hhi _ _ (hpw2.1 a ha) hc
      · have hc2 : comp value v[first + len / 2] = false := by simpa using hc
        simp only [hc2]
        have hlt : len / 2 < len := Nat.div_lt_self (Nat.pos_of_ne_zero hlen) (by decide)
        apply ih (first + len / 2 + 1) (len - len / 2 - 1) (by omega) (by omega)
        · intro a ha
          rw [take_succ_of_getElem? hget] at ha
          rcases List.mem_append.mp ha with ha | ha
          · exact hlo _ _ (hpw3 a ha _ (List.mem_cons_self _ _)) hc2
          · have : a = v[first + len / 2] := by simpa using ha
            rw [this]; exact hc2
        · have he : first + len / 2 + 1 + (len - len / 2 - 1) = first + len := by omega
          rw [he]; exact h2

theorem upperBound_idGreater (mPlayers : List Player) (player : Player)
    (h : SortedDesc mPlayers) :
    upperBound idGreater mPlayers player ≤ mPlayers.length ∧
      (∀ a ∈ mPlayers.take (upperBound idGreater mPlayers player), player.id ≤ a.id) ∧
      (∀ a ∈ mPlayers.drop (upperBound idGreater mPlayers player), a.id < player.id) := by
  have key := upperBoundAux_spec idGreater (fun a b => b.id ≤ a.id) mPlayers player h
    (by intro a b hab hb
        simp only [idGreater, decide_eq_false_iff_not, not_lt, gt_iff_lt] at hb ⊢
        omega)
    (by intro a b hab ha
        simp only [idGreater, decide_eq_true_eq, gt_iff_lt] at ha ⊢
        omega)
    mPlayers.length 0 mPlayers.length (le_refl _) (by omega) (by simp) (by simp)
  obtain ⟨k1, k2, k3⟩ := key
  refine ⟨k1, ?_, ?_⟩
  · intro a ha
    have := k2 a ha
    simpa [idGreater] using this
  · intro a ha
    have := k3 a ha
    simpa [idGreater] using this

theorem registerPlayer_sorted (w : World) (player : Player)
    (h : SortedDesc w.mPlayers) : SortedDesc (w.registerPlayer player).mPlayers := by
  obtain ⟨_, k2, k3⟩ := upperBound_idGreater w.mPlayers player h
  unfold World.registerPlayer SortedDesc
  simp only
  generalize upperBound idGreater w.mPlayers player = r at k2 k3
  have hsplit : (w.mPlayers.take r ++ w.mPlayers.drop r).Pairwise (fun a b => b.id ≤ a.id) := by
    rw [List.take_append_drop]; exact h
  rw [List.pairwise_append] at hsplit
  obtain ⟨p1, p2, p3⟩ := hsplit
  rw [List.pairwise_append]
  refine ⟨p1, ?_, ?_⟩
  · rw [List.pairwise_cons]
    exact ⟨fun a ha => le_of_lt (k3 a ha), p2⟩
  · intro a ha b hb
    rcases List.mem_cons.mp hb with rfl | hb
    · exact k2 a ha
    · exact p3 a ha b hb

theorem registerPlayer_perm (w : World) (player : Player) :
    (w.registerPlayer player).mPlayers.Perm (player :: w.mPlayers) := by
  unfold World.registerPlayer
  simp only
  generalize upperBound idGreater w.mPlayers player = r
  calc (w.mPlayers.take r ++ player :: w.mPlayers.drop r).Perm
        (player :: (w.mPlayers.take r ++ w.mPlayers.drop r)) := List.perm_middle
    _ = player :: w.mPlayers := by rw [List.take_append_drop]

/-- C1. The roster stays sorted by descending id: registering a player into a
roster sorted by descending id gives a roster sorted by descending id that
holds exactly the old players and the new one; deregistering a registered
player leaves the other players in their order; and registering ids 5, 1, 9, 3
into the empty roster gives the traversal order 9, 5, 3, 1. -/
theorem roster_sorted_by_descending_id (w : World) (player : Player)
    (h : SortedDesc w.mPlayers) :
    (SortedDesc (w.registerPlayer player).mPlayers ∧
      (w.registerPlayer player).mPlayers.Perm (player :: w.mPlayers)) ∧
    (player ∈ w.mPlayers →
      SortedDesc (w.deregisterPlayer player).mPlayers ∧
      (w.deregisterPlayer player).mPlayers.Sublist w.mPlayers ∧
      (player :: (w.deregisterPlayer player).mPlayers).Perm w.mPlayers) ∧
    (([5, 1, 9, 3].map mkPlayer).foldl World.registerPlayer World.create).getPlayers.map Actor.id =
      [9, 5, 3, 1] := by
  refine ⟨⟨registerPlayer_sorted w player h, registerPlayer_perm w player⟩, ?_, ?_⟩
  · intro hmem
    refine ⟨?_, ?_, ?_⟩
    · exact List.Pairwise.sublist (List.erase_sublist player w.mPlayers) h
    · exact List.erase_sublist player w.mPlayers
    · exact (List.perm_cons_erase hmem).symm
  · decide

/-- Witness for C1: the roster 9, 5, 3, 1 and its player 3, registered once more
and deregistered. -/
theorem roster_sorted_by_descending_id_witness :
    SortedDesc (rosterWorld [9, 5, 3, 1]).mPlayers ∧
    mkPlayer 3 ∈ (rosterWorld [9, 5, 3, 1]).mPlayers ∧
    ((rosterWorld [9, 5, 3, 1]).registerPlayer (mkPlayer 3)).mPlayers.map Actor.id =
      [9, 5, 3, 3, 1] ∧
    ((rosterWorld [9, 5, 3, 1]).deregisterPlayer (mkPlayer 3)).mPlayers.map Actor.id =
      [9, 5, 1] ∧
    SortedDesc ((rosterWorld [9, 5, 3, 1]).registerPlayer (mkPlayer 3)).mPlayers ∧
    SortedDesc ((rosterWorld [9, 5, 3, 1]).deregisterPlayer (mkPlayer 3)).mPlayers :=
  have h := roster_sorted_by_descending_id (rosterWorld [9, 5, 3, 1])
    (mkPlayer 3) (by simp [SortedDesc, rosterWorld, World.create, mkPlayer])
  ⟨by simp [SortedDesc, rosterWorld, World.create, mkPlayer], by decide, by decide, by decide,
   h.1.1, (h.2.1 (by decide)).1⟩

/-! ## Theorems: behaviour -/

theorem findNearestPlayerLoop_none (actor : Actor) (l : List Player) (nearest : Option Player)
    (minDistance : Int) :
    findNearestPlayerLoop actor l nearest minDistance = none ↔
      nearest = none ∧ ∀ q ∈ l, minDistance ≤ squaredDistance q.pos actor.pos := by
  induction l generalizing nearest minDistance with
  | nil => simp [findNearestPlayerLoop]
  | cons p rest ih =>
    simp only [findNearestPlayerLoop]
    by_cases h : squaredDistance p.pos actor.pos < minDistance
    · simp only [h, if_true, ih]
      constructor
      · intro ⟨h1, _⟩; cases h1
      · intro ⟨_, h2⟩
        have := h2 p (List.mem_cons_self _ _)
        omega
    · simp only [h, if_false, ih, List.mem_cons, forall_eq_or_imp]
      constructor
      · intro ⟨h1, h2⟩; exact ⟨h1, by omega, h2⟩
      · intro ⟨h1, _, h2⟩; exact ⟨h1, h2⟩

theorem findNearestPlayerLoop_some (actor : Actor) (l : List Player) (nearest : Option Player)
    (minDistance : Int) (p : Player)
    (h : findNearestPlayerLoop actor l nearest minDistance = some p) :
    (p ∈ l ∧ squaredDistance p.pos actor.pos < minDistance ∧
        ∀ q ∈ l, squaredDistance p.pos actor.pos ≤ squaredDistance q.pos actor.pos) ∨
      (nearest = some p ∧ ∀ q ∈ l, minDistance ≤ squaredDistance q.pos actor.pos) := by
  induction l generalizing nearest minDistance with
  | nil => right; simpa [findNearestPlayerLoop] using h
  | cons a rest ih =>
    simp only [findNearestPlayerLoop] at h
    by_cases hlt : squaredDistance a.pos actor.pos < minDistance
    · simp only [hlt, if_true] at h
      left
      rcases ih _ _ h with ⟨h1, h2, h3⟩ | ⟨h1, h3⟩
      · refine ⟨List.mem_cons_of_mem _ h1, by omega, ?_⟩
        intro q hq
        rcases List.mem_cons.mp hq with rfl | hq
        · omega
        · exact h3 q hq
      · cases h1
        refine ⟨List.mem_cons_self _ _, hlt, ?_⟩
        intro q hq
        rcases List.mem_cons.mp hq with rfl | hq
        · exact le_refl _
        · exact h3 q hq
    · simp only [hlt, if_false] at h
      rcases ih _ _ h with ⟨h1, h2, h3⟩ | ⟨h1, h3⟩
      · left
        refine ⟨List.mem_cons_of_mem _ h1, h2, ?_⟩
        intro q hq
        rcases List.mem_cons.mp hq with rfl | hq
        · omega
        · exact h3 q hq
      · right
        refine ⟨h1, ?_⟩
        intro q hq
        rcases List.mem_cons.mp hq with rfl | hq
        · omega
        · exact h3 q hq

theorem findNearestPlayer_none (l : List Player) (actor : Actor) :
    findNearestPlayer l actor = none ↔ ∀ q ∈ l, 99999999 ≤ squaredDistance q.pos actor.pos := by
  simp [findNearestPlayer, findNearestPlayerLoop_none]

theorem findNearestPlayer_some (l : List Player) (actor : Actor) (p : Player)
    (h : findNearestPlayer l actor = some p) :
    p ∈ l ∧ squaredDistance p.pos actor.pos < 99999999 ∧
        ∀ q ∈ l, squaredDistance p.pos actor.pos ≤ squaredDistance q.pos actor.pos := by
  rcases findNearestPlayerLoop_some actor l none 99999999 p h with h1 | ⟨h1, _⟩
  · exact h1
  · cases h1

/-- C2. Engagement dominates wandering: for a live actor, any tick counter and
a roster whose nearest player is at squared distance at most 25, one call of
update sets the target to that player, makes no setDestination call, leaves the
movement handler as it was and advances the counter by one. -/
theorem engagement_dominates_wandering (rng : RandLCG) (ticksInPeriod : Int) (w : World)
    (b : BasicMonsterBehaviour) (nearest : Player) (hlive : b.mActor.dead = false)
    (hnear : findNearestPlayer w.getPlayers b.mActor = some nearest)
    (hdist : squaredDistance nearest.pos b.mActor.pos ≤ 25) :
    BasicMonsterBehaviour.update rng ticksInPeriod w b =
      some ⟨⟨b.mTicksSinceLastAction + 1,
        { b.mActor with mTarget := Target.actor nearest.id }⟩, []⟩ := by
  simp [BasicMonsterBehaviour.update, hlive, hnear, hdist]

/-- Witness for C2: a player at (3, 4), squared distance 25, with the counter
above the wander threshold and a draw that would pass. -/
theorem engagement_dominates_wandering_witness :
    findNearestPlayer (worldWith (fun _ _ => true) [actorAt 1 3 4]).mPlayers (actorAt 7 0 0) =
        some (actorAt 1 3 4) ∧
      squaredDistance (actorAt 1 3 4).pos (actorAt 7 0 0).pos ≤ 25 ∧
      BasicMonsterBehaviour.update (scriptedRng [81]) 63
          (worldWith (fun _ _ => true) [actorAt 1 3 4]) ⟨70, actorAt 7 0 0⟩ =
        some ⟨⟨71, { actorAt 7 0 0 with mTarget := Target.actor 1 }⟩, []⟩ :=
  ⟨by decide, by decide,
   engagement_dominates_wandering (scriptedRng [81]) 63
     (worldWith (fun _ _ => true) [actorAt 1 3 4]) ⟨70, actorAt 7 0 0⟩ (actorAt 1 3 4)
     (by decide) (by decide) (by decide)⟩

/-- C3. A dead actor makes no decision: one call of update leaves the actor
(target and movement handler included) unchanged, makes no setDestination call
and leaves the counter exactly one greater. -/
theorem dead_actor_makes_no_decision (rng : RandLCG) (ticksInPeriod : Int) (w : World)
    (b : BasicMonsterBehaviour) (hdead : b.mActor.dead = true) :
    BasicMonsterBehaviour.update rng ticksInPeriod w b =
      some ⟨⟨b.mTicksSinceLastAction + 1, b.mActor⟩, []⟩ := by
  simp [BasicMonsterBehaviour.update, hdead]

/-- Witness for C3: the dead actor of the hit test level, next to a player. -/
theorem dead_actor_makes_no_decision_witness :
    deadActor.dead = true ∧
      BasicMonsterBehaviour.update (scriptedRng [81]) 63
          (worldWith (fun _ _ => true) [actorAt 1 3 4]) ⟨70, deadActor⟩ =
        some ⟨⟨71, deadActor⟩, []⟩ :=
  ⟨rfl, dead_actor_makes_no_decision (scriptedRng [81]) 63
     (worldWith (fun _ _ => true) [actorAt 1 3 4]) ⟨70, deadActor⟩ rfl⟩

/-- C8, counterexample. The actor is walled in (no tile is passable): the draw
passes, the loop runs to its cap of 10 (the returned iteration count is 10), no
destination is set, and the counter, 70 before the call, is 0 after it. -/
theorem counter_reset_without_destination :
    (wanderLoop (scriptedRng [81]) (fun _ _ => false) (0, 0) 10 0 1).1 = 10 ∧
      BasicMonsterBehaviour.update (scriptedRng [81]) 63
          (worldWith (fun _ _ => false) [actorAt 1 10 0]) ⟨70, actorAt 7 0 0⟩ =
        some ⟨⟨0, actorAt 7 0 0⟩, []⟩ :=
  ⟨by decide, by decide⟩

/-- C8, amended. For a call with non-negative counter in which the nearest player
and the actor's level exist, the counter is reset to zero exactly when the
wander branch is reached and its probability draw passes, whether or not a
destination was set; a call that sets a destination resets the counter, and a
call that does not reset the counter sets no destination and leaves the counter
one greater. -/
theorem counter_reset_iff_draw_passed (rng : RandLCG) (ticksInPeriod : Int) (w : World)
    (b : BasicMonsterBehaviour) (nearest : Player) (level : GameLevel)
    (hticks : 0 ≤ b.mTicksSinceLastAction)
    (hnear : findNearestPlayer w.getPlayers b.mActor = some nearest)
    (hlevel : w.levelOf b.mActor = some level) :
    ∃ r, BasicMonsterBehaviour.update rng ticksInPeriod w b = some r ∧
      (r.behaviour.mTicksSinceLastAction = 0 ↔ wanderDrawPassed rng ticksInPeriod w b = true) ∧
      (r.setDestinationCalls ≠ [] → r.behaviour.mTicksSinceLastAction = 0) ∧
      (r.behaviour.mTicksSinceLastAction ≠ 0 →
        r.behaviour.mTicksSinceLastAction = b.mTicksSinceLastAction + 1 ∧
        r.setDestinationCalls = []) := by
  have hne : b.mTicksSinceLastAction + 1 ≠ 0 := by omega
  unfold BasicMonsterBehaviour.update wanderDrawPassed
  simp only [hnear, hlevel]
  cases hd : b.mActor.dead
  · simp only [Bool.not_false, if_true, Bool.true_and]
    by_cases h1 : squaredDistance nearest.pos b.mActor.pos ≤ 25
    · have : ¬ (25 < squaredDistance nearest.pos b.mActor.pos) := by omega
      simp [h1, this, hne]
    · simp only [h1, if_false]
      by_cases h2 : squaredDistance nearest.pos b.mActor.pos ≥ 10000
      · have : ¬ (squaredDistance nearest.pos b.mActor.pos < 10000) := by omega
        simp [h2, this, hne]
      · simp only [h2, if_false]
        have h1' : 25 < squaredDistance nearest.pos b.mActor.pos := by omega
        have h2' : squaredDistance nearest.pos b.mActor.pos < 10000 := by omega
        by_cases h3 : (decide (b.mTicksSinceLastAction + 1 > ticksInPeriod) && !b.mActor.hasTarget && !b.mActor.mMoveHandler.moving) = true
        · simp only [h3, if_true]
          simp only [Bool.and_eq_true, decide_eq_true_eq, Bool.not_eq_true'] at h3
          by_cases h4 : Int.tmod (rng.get (rng.seed (b.mTicksSinceLastAction + 1 + b.mActor.id + b.mActor.pos.current.1))).1 100 > 80
          · simp only [h4, if_true]
            split <;> simp [h1', h2', h3, h4]
          · simp [h4, hne]
        · simp only [h3]
          simp only [Bool.and_eq_true, decide_eq_true_eq, Bool.not_eq_true'] at h3
          simp [hne]
          intro _ _ a b c
          exact absurd ⟨⟨a, b⟩, c⟩ h3
  · simp [hne]

/-- Witness for C8: the walled-in actor of the counterexample. -/
theorem counter_reset_iff_draw_passed_witness :
    findNearestPlayer (worldWith (fun _ _ => false) [actorAt 1 10 0]).mPlayers (actorAt 7 0 0) =
        some (actorAt 1 10 0) ∧
      wanderDrawPassed (scriptedRng [81]) 63 (worldWith (fun _ _ => false) [actorAt 1 10 0])
        ⟨70, actorAt 7 0 0⟩ = true ∧
      ∃ r, BasicMonsterBehaviour.update (scriptedRng [81]) 63
          (worldWith (fun _ _ => false) [actorAt 1 10 0]) ⟨70, actorAt 7 0 0⟩ = some r ∧
        (r.behaviour.mTicksSinceLastAction = 0 ↔
          wanderDrawPassed (scriptedRng [81]) 63 (worldWith (fun _ _ => false) [actorAt 1 10 0])
            ⟨70, actorAt 7 0 0⟩ = true) ∧
        (r.setDestinationCalls ≠ [] → r.behaviour.mTicksSinceLastAction = 0) ∧
        (r.behaviour.mTicksSinceLastAction ≠ 0 →
          r.behaviour.mTicksSinceLastAction = (70 : Int) + 1 ∧ r.setDestinationCalls = []) :=
  ⟨by decide, by decide,
   counter_reset_iff_draw_passed (scriptedRng [81]) 63
     (worldWith (fun _ _ => false) [actorAt 1 10 0]) ⟨70, actorAt 7 0 0⟩ (actorAt 1 10 0)
     (emptyLevel 1 (fun _ _ => false)) (by decide) (by decide) rfl⟩

/-- What the wander loop computes: the first acceptable candidate among the first
nine, with an iteration count below 10, or else the tenth candidate, untested,
with iteration count 10. -/
theorem wanderLoop_spec (rng : RandLCG) (isPassable : Int → Int → Bool) (current : Int × Int) :
    ∀ (fuel its : Nat) (r : Int), its + fuel = 10 → 1 ≤ fuel →
      (∃ k, its + k + 1 < 10 ∧ acceptable isPassable current (nthCandidate rng current k r) = true ∧
          (∀ j, j < k → acceptable isPassable current (nthCandidate rng current j r) = false) ∧
          wanderLoop rng isPassable current fuel its r = (its + k + 1, nthCandidate rng current k r)) ∨
      ((∀ j, its + j + 1 < 10 →
            acceptable isPassable current (nthCandidate rng current j r) = false) ∧
          wanderLoop rng isPassable current fuel its r =
            (10, nthCandidate rng current (9 - its) r)) := by
  intro fuel
  induction fuel with
  | zero => intro its r _ h; omega
  | succ n ih =>
    intro its r hsum _
    simp only [wanderLoop]
    by_cases hits : its + 1 < 10
    · by_cases hacc : acceptable isPassable current (wanderCandidate rng current r).1 = true
      · left
        refine ⟨0, by omega, by simpa [nthCandidate] using hacc, by intro j hj; omega, ?_⟩
        have hacc' := hacc
        simp only [acceptable, Bool.and_eq_true, bne_iff_ne, ne_eq] at hacc'
        simp [hits, hacc'.1, hacc'.2, nthCandidate]
      · have hacc' : acceptable isPassable current (wanderCandidate rng current r).1 = false := by
          simpa using hacc
        have hcond : (decide (its + 1 < 10) &&
            (!isPassable (wanderCandidate rng current r).1.1 (wanderCandidate rng current r).1.2 ||
              (wanderCandidate rng current r).1 == current)) = true := by
          simp only [acceptable, Bool.and_eq_false_iff, bne_eq_false_iff_eq] at hacc'
          simp only [hits, decide_True, Bool.true_and, Bool.or_eq_true, Bool.not_eq_true',
            beq_iff_eq]
          exact hacc'
        simp only [hcond, if_true]
        rcases ih (its + 1) (wanderCandidate rng current r).2 (by omega) (by omega) with
          ⟨k, hk1, hk2, hk3, hk4⟩ | ⟨hn1, hn2⟩
        · left
          refine ⟨k + 1, by omega, by simpa [nthCandidate] using hk2, ?_, ?_⟩
          · intro j hj
            cases j with
            | zero => simpa [nthCandidate] using hacc'
            | succ j => simpa [nthCandidate] using hk3 j (by omega)
          · rw [hk4]
            simp only [nthCandidate]
            congr 1
            omega
        · right
          refine ⟨?_, ?_⟩
          · intro j hj
            cases j with
            | zero => simpa [nthCandidate] using hacc'
            | succ j => simpa [nthCandidate] using hn1 j (by omega)
          · rw [hn2]
            have : 9 - its = (9 - (its + 1)) + 1 := by omega
            rw [this]
            simp only [nthCandidate]
    · right
      have h9 : its = 9 := by omega
      subst h9
      refine ⟨by intro j hj; omega, ?_⟩
      simp [nthCandidate]

/-- C9, the code at the failing input. The only wall of the level is tile (1, 1);
the first nine candidates drawn are (1, 1) and the tenth is (3, 3), which is
passable and differs from the actor's position (0, 0).  The loop ends with
iteration count 10 on that tenth candidate, and update sets no destination. -/
theorem tenth_candidate_is_discarded :
    (List.range 10).map (fun k => nthCandidate (scriptedRng wallScript) (0, 0) k 1) =
        [(1, 1), (1, 1), (1, 1), (1, 1), (1, 1), (1, 1), (1, 1), (1, 1), (1, 1), (3, 3)] ∧
      acceptable wallAtOneOne (0, 0) (1, 1) = false ∧
      acceptable wallAtOneOne (0, 0) (3, 3) = true ∧
      wanderLoop (scriptedRng wallScript) wallAtOneOne (0, 0) 10 0 1 = (10, (3, 3)) ∧
      BasicMonsterBehaviour.update (scriptedRng wallScript) 63
          (worldWith wallAtOneOne [actorAt 1 10 0]) ⟨70, actorAt 7 0 0⟩ =
        some ⟨⟨0, actorAt 7 0 0⟩, []⟩ :=
  ⟨by decide, by decide, by decide, by decide, by decide⟩

/-! ## Theorems: save and load -/

theorem assignLevel_append (levels : List (Int × Option GameLevel)) (key : Int)
    (level : Option GameLevel) (h : ∀ p ∈ levels, p.1 < key) :
    assignLevel levels key level = levels ++ [(key, level)] := by
  induction levels with
  | nil => rfl
  | cons p rest ih =>
    obtain ⟨k, v⟩ := p
    have hk : k < key := h (k, v) (List.mem_cons_self _ _)
    have h1 : ¬ key < k := by omega
    have h2 : ¬ key = k := by omega
    simp only [assignLevel, h1, h2, if_false, List.cons_append]
    rw [ih (fun q hq => h q (List.mem_cons_of_mem _ hq))]

theorem foldl_assignLevel (levels acc : List (Int × Option GameLevel))
    (h : KeysAscending (acc ++ levels)) :
    levels.foldl (fun m p => assignLevel m p.1 p.2) acc = acc ++ levels := by
  induction levels generalizing acc with
  | nil => simp
  | cons p rest ih =>
    have hsplit : acc ++ p :: rest = (acc ++ [p]) ++ rest := by simp
    have hp : ∀ q ∈ acc, q.1 < p.1 := by
      intro q hq
      have := (List.pairwise_append.mp h).2.2 q hq p (List.mem_cons_self _ _)
      exact this
    simp only [List.foldl_cons]
    rw [assignLevel_append acc p.1 p.2 hp]
    rw [hsplit] at h
    rw [ih _ h, hsplit]

theorem loadLevels_saveLevels (codec : LevelCodec) (levels : List (Int × Option GameLevel))
    (hrt : LevelsRoundTrip codec levels) (acc : List (Int × Option GameLevel))
    (rest : List SaveItem) :
    loadLevels codec levels.length (saveLevels codec levels ++ rest) acc =
      some (levels.foldl (fun m p => assignLevel m p.1 p.2) acc, rest) := by
  induction levels generalizing acc with
  | nil => simp [loadLevels, saveLevels]
  | cons p tail ih =>
    have hrt' : LevelsRoundTrip codec tail :=
      fun key level hmem => hrt key level (List.mem_cons_of_mem _ hmem)
    obtain ⟨k, v⟩ := p
    cases v with
    | none =>
      simp only [saveLevels, List.length_cons, List.cons_append, loadLevels, List.foldl_cons]
      simpa using ih hrt' (assignLevel acc k none)
    | some level =>
      have hl := hrt k level (List.mem_cons_self _ _) (saveLevels codec tail ++ rest)
      simp only [saveLevels, List.length_cons, List.cons_append, loadLevels, List.foldl_cons,
        if_true, List.append_eq, List.append_assoc, hl]
      exact ih hrt' (assignLevel acc k (some level))

/-- C4. Save then load: for a World whose level map has ascending keys and fewer
than 2^32 slots, whose levels round-trip through their own serialized form and
whose current player is known by id to a present level, save writes a stream
from which the loading constructor builds a World with the same level indices,
the same presence flag for each index, a current player with the same id and
the same mNextId. -/
theorem save_load_round_trip (codec : LevelCodec) (w : World) (player : Player)
    (hkeys : KeysAscending w.mLevels) (hsize : w.mLevels.length < 4294967296)
    (hrt : LevelsRoundTrip codec w.mLevels)
    (hcur : w.mCurrentPlayer = some player)
    (hres : (w.getActorById player.id).map Actor.id = some player.id) :
    ∃ stream w', w.save codec = some stream ∧ World.load codec stream = some w' ∧
      w'.mLevels.map Prod.fst = w.mLevels.map Prod.fst ∧
      presenceFlags w'.mLevels = presenceFlags w.mLevels ∧
      w'.mCurrentPlayer.map Actor.id = some player.id ∧
      w'.mNextId = w.mNextId := by
  have hload := loadLevels_saveLevels codec w.mLevels hrt []
    [SaveItem.i32 player.id, SaveItem.i32 w.mNextId]
  rw [foldl_assignLevel w.mLevels [] (by simpa using hkeys), List.nil_append] at hload
  refine ⟨SaveItem.u32 (w.mLevels.length % 4294967296) ::
      (saveLevels codec w.mLevels ++ [SaveItem.i32 player.id, SaveItem.i32 w.mNextId]),
    { World.create with
      mLevels := w.mLevels, mNextId := w.mNextId,
      mCurrentPlayer := getActorByIdIn w.mLevels player.id }, ?_, ?_, rfl, rfl, ?_, rfl⟩
  · simp only [World.save, hcur]
  · simp only [World.load, Nat.mod_eq_of_lt hsize, hload]
  · simpa [World.getActorById] using hres

theorem savedWorld_roundTrip : LevelsRoundTrip indexCodec savedWorld.mLevels := by
  intro key level hmem rest
  simp [savedWorld] at hmem
  rcases hmem with ⟨_, rfl⟩ | ⟨_, rfl⟩ <;> rfl

/-- Witness for C4: three slots, the middle one not generated, player 1 current. -/
theorem save_load_round_trip_witness :
    KeysAscending savedWorld.mLevels ∧ LevelsRoundTrip indexCodec savedWorld.mLevels ∧
      (savedWorld.getActorById (actorAt 1 25 29).id).map Actor.id = some (actorAt 1 25 29).id ∧
      ∃ stream w', savedWorld.save indexCodec = some stream ∧
        World.load indexCodec stream = some w' ∧
        w'.mLevels.map Prod.fst = savedWorld.mLevels.map Prod.fst ∧
        presenceFlags w'.mLevels = presenceFlags savedWorld.mLevels ∧
        w'.mCurrentPlayer.map Actor.id = some (actorAt 1 25 29).id ∧
        w'.mNextId = savedWorld.mNextId :=
  ⟨by simp [KeysAscending, savedWorld], savedWorld_roundTrip, by decide,
   save_load_round_trip indexCodec savedWorld (actorAt 1 25 29)
     (by simp [KeysAscending, savedWorld]) (by decide) savedWorld_roundTrip rfl (by decide)⟩

/-! ## Theorems: hit testing -/

theorem actorStayingAt_some (level : GameLevel) (cur : Player) (x y : Int) (a : Actor) :
    actorStayingAt level cur x y = some a ↔ HoldsTargetable level cur (x, y) a := by
  unfold actorStayingAt HoldsTargetable
  by_cases hx : x ≥ wrap32 level.width
  · simp [hx]
  · by_cases hy : y ≥ wrap32 level.height
    · simp [hy]
    · have hx' : x < wrap32 level.width := by omega
      have hy' : y < wrap32 level.height := by omega
      simp only [hx, hy, decide_False, Bool.or_self, Bool.false_eq_true, if_false, hx', hy',
        true_and]
      cases hget : level.getActorAt (toSizeT x) (toSizeT y) with
      | none => simp
      | some b =>
        by_cases hb : b.dead = true
        · simp [hb]
          intro h1 h2; rw [← h1] at h2; simp [hb] at h2
        · have hb' : b.dead = false := by simpa using hb
          by_cases hc : b = cur
          · simp [hb', hc]
            intro h _; exact h.symm
          · simp only [hb', Bool.not_false, Bool.true_and, bne_iff_ne, ne_eq, hc,
              not_false_eq_true, if_true, Option.some.injEq]
            constructor
            · intro h; subst h; exact ⟨rfl, hb', hc⟩
            · intro ⟨h, _, _⟩; exact h

theorem actorStayingAt_none (level : GameLevel) (cur : Player) (x y : Int) :
    actorStayingAt level cur x y = none ↔ ∀ a, ¬ HoldsTargetable level cur (x, y) a := by
  constructor
  · intro h a ha
    rw [← actorStayingAt_some, h] at ha
    cases ha
  · intro h
    cases hs : actorStayingAt level cur x y with
    | none => rfl
    | some a => exact absurd ((actorStayingAt_some level cur x y a).mp hs) (h a)

theorem first_of_three {α β : Type} (H : α → β → Prop) (t0 t1 t2 : α) (s0 s1 s2 : Option β)
    (h0 : ∀ a, s0 = some a ↔ H t0 a) (h1 : ∀ a, s1 = some a ↔ H t1 a)
    (h2 : ∀ a, s2 = some a ↔ H t2 a) (a : β) :
    (s0 <|> s1 <|> s2) = some a ↔
      ∃ pre t post, [t0, t1, t2] = pre ++ t :: post ∧ H t a ∧ ∀ t' ∈ pre, ∀ a', ¬ H t' a' := by
  constructor
  · intro h
    cases e0 : s0 with
    | some b =>
      rw [e0] at h
      simp at h
      subst h
      exact ⟨[], t0, [t1, t2], rfl, (h0 b).mp e0, by simp⟩
    | none =>
      have n0 : ∀ a', ¬ H t0 a' := fun a' ha => by
        have := (h0 a').mpr ha
        rw [e0] at this; cases this
      rw [e0] at h
      cases e1 : s1 with
      | some b =>
        rw [e1] at h
        simp at h
        subst h
        refine ⟨[t0], t1, [t2], rfl, (h1 b).mp e1, ?_⟩
        intro t' ht'
        have : t' = t0 := by simpa using ht'
        subst this; exact n0
      | none =>
        have n1 : ∀ a', ¬ H t1 a' := fun a' ha => by
          have := (h1 a').mpr ha
          rw [e1] at this; cases this
        rw [e1] at h
        simp at h
        refine ⟨[t0, t1], t2, [], rfl, (h2 a).mp h, ?_⟩
        intro t' ht'
        have : t' = t0 ∨ t' = t1 := by simpa using ht'
        rcases this with rfl | rfl
        · exact n0
        · exact n1
  · rintro ⟨pre, t, post, hdec, hH, hpre⟩
    rcases pre with _ | ⟨p0, _ | ⟨p1, _ | ⟨p2, pre⟩⟩⟩
    · simp at hdec
      obtain ⟨rfl, _⟩ := hdec
      rw [(h0 a).mpr hH]; simp
    · simp at hdec
      obtain ⟨rfl, rfl, _⟩ := hdec
      have e0 : s0 = none := by
        cases e : s0 with
        | none => rfl
        | some b => exact absurd ((h0 b).mp e) (hpre _ (by simp) b)
      rw [e0, (h1 a).mpr hH]; simp
    · simp at hdec
      obtain ⟨rfl, rfl, rfl, _⟩ := hdec
      have e0 : s0 = none := by
        cases e : s0 with
        | none => rfl
        | some b => exact absurd ((h0 b).mp e) (hpre _ (by simp) b)
      have e1 : s1 = none := by
        cases e : s1 with
        | none => rfl
        | some b => exact absurd ((h1 b).mp e) (hpre _ (by simp) b)
      rw [e0, e1, (h2 a).mpr hH]; simp
    · simp at hdec

theorem targetedActor_eq (w : World) (tile : Tile) (cur : Player) (level : GameLevel)
    (hcur : w.mCurrentPlayer = some cur) (hlevel : w.getCurrentLevel = some level) :
    w.targetedActor tile = some
      (actorStayingAt level cur tile.x tile.y <|>
       actorStayingAt level cur (tile.x + 1) (tile.y + 1) <|>
       actorStayingAt level cur (lateralTile tile).1 (lateralTile tile).2) := by
  unfold World.targetedActor
  simp only [hcur, hlevel]
  obtain ⟨x, y, half⟩ := tile
  cases half <;>
    simp only [lateralTile] <;>
    cases actorStayingAt level cur x y <;>
    cases actorStayingAt level cur (x + 1) (y + 1) <;>
    simp
  · cases actorStayingAt level cur x (y + 1) <;> simp
  · cases actorStayingAt level cur (x + 1) y <;> simp

/-- C5. On the current level, targetedActor returns the actor held by the first
of the tiles (x, y), (x+1, y+1) and the lateral neighbour of the hit half that
holds an actor which is not dead and is not the current player; it returns none
exactly when none of the three tiles holds such an actor; and when (x, y) holds
a dead actor and (x+1, y+1) a targetable one, the latter is returned. -/
theorem targetedActor_first_targetable (w : World) (tile : Tile) (cur : Player)
    (level : GameLevel)
    (hcur : w.mCurrentPlayer = some cur) (hlevel : w.getCurrentLevel = some level) :
    ∃ r, w.targetedActor tile = some r ∧
      (∀ a, r = some a ↔
        ∃ pre t post, candidateTiles tile = pre ++ t :: post ∧
          HoldsTargetable level cur t a ∧ ∀ t' ∈ pre, ∀ a', ¬ HoldsTargetable level cur t' a') ∧
      (r = none ↔ ∀ t ∈ candidateTiles tile, ∀ a, ¬ HoldsTargetable level cur t a) ∧
      (∀ d a, level.getActorAt (toSizeT tile.x) (toSizeT tile.y) = some d → d.dead = true →
        HoldsTargetable level cur (tile.x + 1, tile.y + 1) a → r = some a) := by
  refine ⟨_, targetedActor_eq w tile cur level hcur hlevel, ?_⟩
  have key := first_of_three (HoldsTargetable level cur)
    (tile.x, tile.y) (tile.x + 1, tile.y + 1) (lateralTile tile)
    _ _ _
    (fun a => actorStayingAt_some level cur _ _ a)
    (fun a => actorStayingAt_some level cur _ _ a)
    (fun a => actorStayingAt_some level cur _ _ a)
  refine ⟨?_, ?_, ?_⟩
  · intro a
    exact key a
  · simp only [candidateTiles, List.mem_cons, List.mem_singleton, forall_eq_or_imp, forall_eq,
      List.not_mem_nil, false_imp_iff, implies_true, and_true]
    rw [← actorStayingAt_none, ← actorStayingAt_none, ← actorStayingAt_none]
    cases actorStayingAt level cur tile.x tile.y <;>
      cases actorStayingAt level cur (tile.x + 1) (tile.y + 1) <;>
      cases actorStayingAt level cur (lateralTile tile).1 (lateralTile tile).2 <;> simp
  · intro d a hd hdead ha
    have h0 : actorStayingAt level cur tile.x tile.y = none := by
      rw [actorStayingAt_none]
      intro a' ha'
      obtain ⟨_, _, hg, hlive, _⟩ := ha'
      simp only at hg
      rw [hd] at hg
      cases hg
      rw [hdead] at hlive
      cases hlive
    rw [h0, (actorStayingAt_some level cur _ _ a).mpr ha]
    simp

/-- Witness for C5: tile (3, 3) holds a dead actor and (4, 4) a live one. -/
theorem targetedActor_first_targetable_witness :
    hitTestWorld.mCurrentPlayer = some (actorAt 1 10 10) ∧
      hitTestWorld.getCurrentLevel = some hitTestLevel ∧
      hitTestWorld.targetedActor ⟨3, 3, TileHalf.left⟩ = some (some (actorAt 9 4 4)) := by
  refine ⟨rfl, rfl, ?_⟩
  obtain ⟨r, h1, _, _, h4⟩ :=
    targetedActor_first_targetable hitTestWorld ⟨3, 3, TileHalf.left⟩ (actorAt 1 10 10)
      hitTestLevel rfl rfl
  rw [h1, h4 deadActor (actorAt 9 4 4) rfl rfl (by unfold HoldsTargetable; decide)]

/-! ## Theorems: level transition and update -/

/-- C6. When the current player is on a level whose index is i, setLevel(i)
returns the World unchanged (so the player's level and position are unchanged
and no slot is filled) and makes no generator and no music call. -/
theorem setLevel_current_level_noop (generate : LevelGenerator) (w : World) (player : Player)
    (key : Int) (level : GameLevel) (hcur : w.mCurrentPlayer = some player)
    (hkey : player.level = some key) (hlevel : w.levelAt key = some level) :
    w.setLevel generate level.levelIndex = some (w, []) := by
  unfold World.setLevel
  split
  · rfl
  · simp [hcur, hkey, hlevel]

/-- Witness for C6: the current player of the hit test world is on level 1. -/
theorem setLevel_current_level_noop_witness :
    hitTestWorld.levelAt 1 = some hitTestLevel ∧
      hitTestWorld.setLevel plainGenerator 1 = some (hitTestWorld, []) :=
  ⟨rfl, setLevel_current_level_noop plainGenerator hitTestWorld (actorAt 1 10 10) 1
     hitTestLevel rfl rfl rfl⟩

theorem updateLevelsLoop_spec (players : List Player) (done calls : List Int)
    (hnodup : calls.Nodup) (hsame : ∀ l, l ∈ done ↔ l ∈ calls) :
    (updateLevelsLoop players done calls).2.Nodup ∧
      ∀ l, l ∈ (updateLevelsLoop players done calls).2 ↔
        l ∈ calls ∨ ∃ p ∈ players, p.level = some l := by
  induction players generalizing done calls with
  | nil => simp [updateLevelsLoop, hnodup]
  | cons p rest ih =>
    simp only [updateLevelsLoop]
    cases hp : p.level with
    | none =>
      simp only
      obtain ⟨h1, h2⟩ := ih done calls hnodup hsame
      refine ⟨h1, fun l => ?_⟩
      rw [h2 l]
      simp [hp]
    | some level =>
      simp only
      by_cases hd : done.contains level = true
      · simp only [hd, Bool.not_true, Bool.false_eq_true, if_false]
        obtain ⟨h1, h2⟩ := ih done calls hnodup hsame
        refine ⟨h1, fun l => ?_⟩
        rw [h2 l]
        have hmem : level ∈ calls := (hsame level).mp (by simpa using hd)
        constructor
        · rintro (h | ⟨q, hq, hql⟩)
          · exact Or.inl h
          · exact Or.inr ⟨q, List.mem_cons_of_mem _ hq, hql⟩
        · rintro (h | ⟨q, hq, hql⟩)
          · exact Or.inl h
          · rcases List.mem_cons.mp hq with rfl | hq
            · rw [hp] at hql
              cases hql
              exact Or.inl hmem
            · exact Or.inr ⟨q, hq, hql⟩
      · have hd' : done.contains level = false := by simpa using hd
        simp only [hd', Bool.not_false, if_true]
        have hnot : level ∉ calls := fun h => hd (by simpa using (hsame level).mpr h)
        have hnodup' : (calls ++ [level]).Nodup := by
          rw [List.nodup_append]
          refine ⟨hnodup, List.nodup_singleton _, ?_⟩
          intro a ha hb
          have : a = level := by simpa using hb
          subst this
          exact hnot ha
        have hsame' : ∀ l, l ∈ level :: done ↔ l ∈ calls ++ [level] := by
          intro l
          simp only [List.mem_cons, List.mem_append, List.mem_singleton, hsame l]
          tauto
        obtain ⟨h1, h2⟩ := ih (level :: done) (calls ++ [level]) hnodup' hsame'
        refine ⟨h1, fun l => ?_⟩
        rw [h2 l]
        simp only [List.mem_append, List.mem_singleton, List.mem_cons, List.not_mem_nil, or_false]
        constructor
        · rintro ((h | h) | ⟨q, hq, hql⟩)
          · exact Or.inl h
          · exact Or.inr ⟨p, Or.inl rfl, by rw [hp, h]⟩
          · exact Or.inr ⟨q, Or.inr hq, hql⟩
        · rintro (h | ⟨q, hq, hql⟩)
          · exact Or.inl (Or.inl h)
          · rcases hq with rfl | hq
            · rw [hp] at hql
              cases hql
              exact Or.inl (Or.inr rfl)
            · exact Or.inr ⟨q, hq, hql⟩

/-- C10. The level part of update advances the tick counter by exactly one and
invokes the per-level update exactly once for every level on which some roster
player resides, and never for any other level. -/
theorem update_levels_once_per_hosting_level (w : World) :
    (w.updateLevels).1.mTicksPassed = w.mTicksPassed + 1 ∧
    (∀ l, (∃ p ∈ w.mPlayers, p.level = some l) → (w.updateLevels).2.count l = 1) ∧
    (∀ l, (¬ ∃ p ∈ w.mPlayers, p.level = some l) → (w.updateLevels).2.count l = 0) := by
  obtain ⟨h1, h2⟩ := updateLevelsLoop_spec w.mPlayers [] [] List.nodup_nil (by simp)
  refine ⟨rfl, ?_, ?_⟩
  · intro l hl
    exact List.count_eq_one_of_mem h1 ((h2 l).mpr (Or.inr hl))
  · intro l hl
    refine List.count_eq_zero_of_not_mem ?_
    intro hmem
    rcases (h2 l).mp hmem with h | h
    · simp at h
    · exact hl h

/-! ## Theorems: the level store -/

theorem find?_setSlot (levels : List (Int × Option GameLevel)) (key : Int) (g : GameLevel) :
    (setSlot levels key g).find? (fun p => p.1 == key) =
      (levels.find? (fun p => p.1 == key)).map (fun p => (p.1, some g)) := by
  induction levels with
  | nil => rfl
  | cons p rest ih =>
    by_cases h : p.1 = key
    · simp [setSlot, List.find?, h]
    · have h' : (p.1 == key) = false := by simpa using h
      simp only [setSlot, List.map_cons, h', List.find?, Bool.false_eq_true, if_false]
      simpa [setSlot] using ih

theorem length_setSlot (levels : List (Int × Option GameLevel)) (key : Int) (g : GameLevel) :
    (setSlot levels key g).length = levels.length := by
  simp [setSlot]

theorem slot_cases (w : World) (key : Int) (s : Option GameLevel) :
    w.slot key = some s ↔ ∃ k, w.mLevels.find? (fun p => p.1 == key) = some (k, s) := by
  unfold World.slot
  cases w.mLevels.find? (fun p => p.1 == key) with
  | none => simp
  | some p => obtain ⟨k, v⟩ := p; simp

theorem slot_none (w : World) (key : Int) :
    w.slot key = none ↔ w.mLevels.find? (fun p => p.1 == key) = none := by
  unfold World.slot
  cases w.mLevels.find? (fun p => p.1 == key) <;> simp

theorem levelAt_of_slot (w : World) (key : Int) (level : GameLevel)
    (h : w.slot key = some (some level)) : w.levelAt key = some level := by
  obtain ⟨k, hk⟩ := (slot_cases w key _).mp h
  simp only [World.levelAt, hk]

/-- What `getLevel` does on a slot that exists: the level returned is stored in
the slot afterwards, the number of slots is unchanged, and the generator is
called exactly when the slot was empty. -/
theorem getLevel_of_slot (generate : LevelGenerator) (w : World) (index : Nat)
    (h : w.slot (wrap32 index) ≠ none) :
    ∃ w' level events, w.getLevel generate index = (w', some level, events) ∧
      w'.slot (wrap32 index) = some (some level) ∧
      w'.mLevels.length = w.mLevels.length ∧
      w'.mCurrentPlayer = w.mCurrentPlayer ∧
      (events = [] ∨ events = [WorldEvent.generate 100 100 index (toSizeT (index - 1))
        (toSizeT (index + 1))]) := by
  cases hs : w.slot (wrap32 index) with
  | none => exact absurd hs h
  | some s =>
    obtain ⟨k, hk⟩ := (slot_cases w _ _).mp hs
    cases s with
    | none =>
      have hfind := find?_setSlot w.mLevels (wrap32 index)
        (generate 100 100 index (toSizeT (index - 1)) (toSizeT (index + 1)))
      rw [hk] at hfind
      simp only [World.getLevel, hk]
      refine ⟨_, _, _, rfl, ?_, ?_, rfl, Or.inr rfl⟩
      · simp only [World.slot, hfind, Option.map_some']
      · simp only [length_setSlot]
    | some level =>
      simp only [World.getLevel, hk]
      exact ⟨_, _, _, rfl, hs, rfl, rfl, Or.inl rfl⟩

/-- C11. For an index whose slot is reserved but not generated, getLevel calls
the generator once with (100, 100, index, index - 1, index + 1) computed in
size_t, stores the result in that slot, keeps the set of slots and returns the
level, and a second getLevel returns the same level without a generator call;
for a slot that holds a level it returns that level, leaves the store as it is
and makes no generator call; for an index without a slot it returns no level
and leaves the store unchanged.  Indices below 2^31 are their own key, and from
index 1 on the size_t values index - 1 and index + 1 are exact. -/
theorem getLevel_generates_once_and_caches (generate : LevelGenerator) (w : World)
    (index : Nat) :
    (w.slot (wrap32 index) = some none →
      ∃ w' level, w.getLevel generate index =
          (w', some level, [WorldEvent.generate 100 100 index (toSizeT (index - 1))
            (toSizeT (index + 1))]) ∧
        level = generate 100 100 index (toSizeT (index - 1)) (toSizeT (index + 1)) ∧
        w'.slot (wrap32 index) = some (some level) ∧
        w'.mLevels.map Prod.fst = w.mLevels.map Prod.fst ∧
        w'.getLevel generate index = (w', some level, [])) ∧
    (∀ level, w.slot (wrap32 index) = some (some level) →
      w.getLevel generate index = (w, some level, [])) ∧
    (w.slot (wrap32 index) = none → w.getLevel generate index = (w, none, [])) ∧
    (index < 2147483648 → wrap32 index = index) ∧
    (1 ≤ index → index < 18446744073709551615 →
      ((toSizeT (index - 1) : Nat) : Int) = (index : Int) - 1 ∧
      ((toSizeT (index + 1) : Nat) : Int) = (index : Int) + 1) := by
  refine ⟨?_, ?_, ?_, ?_, ?_⟩
  · intro h
    obtain ⟨k, hk⟩ := (slot_cases w _ _).mp h
    have hfind := find?_setSlot w.mLevels (wrap32 index)
      (generate 100 100 index (toSizeT (index - 1)) (toSizeT (index + 1)))
    rw [hk] at hfind
    simp only [World.getLevel, hk]
    refine ⟨_, _, rfl, rfl, ?_, ?_, ?_⟩
    · simp only [World.slot, hfind, Option.map_some']
    · simp only [setSlot, List.map_map]
      apply List.map_congr_left
      intro a _
      simp only [Function.comp]
      split <;> rfl
    · simp only [hfind, Option.map_some']
  · intro level h
    obtain ⟨k, hk⟩ := (slot_cases w _ _).mp h
    simp only [World.getLevel, hk]
  · intro h
    simp only [World.getLevel, (slot_none w _).mp h]
  · intro h
    unfold wrap32
    omega
  · intro h1 h2
    unfold toSizeT
    constructor <;> omega

theorem wrap32_small (x : Int) (h0 : -2147483648 ≤ x) (h1 : x < 2147483648) : wrap32 x = x := by
  unfold wrap32; omega

theorem setLevel_ignored (generate : LevelGenerator) (w : World) (levelNum : Int)
    (hsize : w.mLevels.length < 2147483648)
    (h : levelNum < 0 ∨ (w.mLevels.length : Int) ≤ levelNum) :
    w.setLevel generate levelNum = some (w, []) := by
  unfold World.setLevel
  rw [wrap32_small _ (by omega) (by omega)]
  have : (decide (levelNum ≥ (w.mLevels.length : Int)) || decide (levelNum < 0)) = true := by
    rcases h with h | h
    · simp [h]
    · simp [h]
  simp only [this, if_true]

theorem setLevel_moves (generate : LevelGenerator) (w : World) (player : Player)
    (levelNum : Int) (hcur : w.mCurrentPlayer = some player)
    (hsize : w.mLevels.length < 2147483648)
    (h0 : 0 ≤ levelNum) (h1 : levelNum < w.mLevels.length)
    (hslot : w.slot levelNum ≠ none)
    (hnot : player.level = none ∨
      ∃ key current, player.level = some key ∧ w.levelAt key = some current ∧
        current.levelIndex ≠ levelNum) :
    ∃ w' level events,
      w.setLevel generate levelNum = some (w', events ++ [playLevelMusic levelNum.toNat]) ∧
      w'.slot levelNum = some (some level) ∧
      w'.mLevels.length = w.mLevels.length ∧
      w'.mCurrentPlayer = some (player.teleport levelNum
        ⟨(wrap32 level.upStairsPos.1, wrap32 level.upStairsPos.2)⟩) ∧
      (events = [] ∨ events = [WorldEvent.generate 100 100 levelNum.toNat
        (toSizeT (levelNum.toNat - 1)) (toSizeT (levelNum.toNat + 1))]) := by
  have hkey : wrap32 (levelNum.toNat : Int) = levelNum := by
    rw [Int.toNat_of_nonneg h0]; exact wrap32_small _ (by omega) (by omega)
  have hslot' : w.slot (wrap32 (levelNum.toNat : Int)) ≠ none := by rw [hkey]; exact hslot
  obtain ⟨w', level, events, hget, hs, hlen, _, hev⟩ :=
    getLevel_of_slot generate w levelNum.toNat hslot'
  rw [hkey] at hs
  have hguard : (decide (levelNum ≥ wrap32 (w.mLevels.length : Int)) || decide (levelNum < 0))
      = false := by
    rw [wrap32_small _ (by omega) (by omega)]
    simp only [Bool.or_eq_false_iff, decide_eq_false_iff_not]
    constructor <;> omega
  refine ⟨{ w' with mCurrentPlayer := some (player.teleport levelNum
      ⟨(wrap32 level.upStairsPos.1, wrap32 level.upStairsPos.2)⟩) }, level, events, ?_, hs, hlen,
    rfl, hev⟩
  unfold World.setLevel
  simp only [hguard, Bool.false_eq_true, if_false, hcur]
  rcases hnot with h | ⟨key, current, hk, hl, hne⟩
  · simp only [h, hget, hkey]
  · have hb : (current.levelIndex == levelNum) = false := by simpa using hne
    simp only [hk, hl, hb, hget, hkey]

theorem slot_none_of_dense (w : World) (key : Int) (hd : DenseKeys w.mLevels) :
    w.slot key = none ↔ key < 0 ∨ (w.mLevels.length : Int) ≤ key := by
  rw [slot_none, List.find?_eq_none]
  unfold DenseKeys at hd
  constructor
  · intro h
    by_contra hc
    have hk0 : 0 ≤ key := by omega
    have hk1 : key < w.mLevels.length := by omega
    have hmem : key ∈ w.mLevels.map Prod.fst := by
      rw [hd, List.mem_map]
      exact ⟨key.toNat, List.mem_range.mpr (by omega), by simp [Int.toNat_of_nonneg hk0]⟩
    obtain ⟨p, hp, hpk⟩ := List.mem_map.mp hmem
    exact h p hp (by simpa using hpk)
  · intro h p hp
    have hmem : p.1 ∈ w.mLevels.map Prod.fst := List.mem_map.mpr ⟨p, hp, rfl⟩
    rw [hd, List.mem_map] at hmem
    obtain ⟨i, hi, hik⟩ := hmem
    have hi' := List.mem_range.mp hi
    have : p.1 = (i : Int) := by rw [← hik]; rfl
    simp only [beq_iff_eq]
    omega

/-- C12, counterexample. In the store built by generateLevels and
insertLevel(20, ..) there are 18 slots: index 17 has no slot, yet setLevel(17)
passes the guard and dereferences the null level; index 20 has a slot and is
not the current level (index 0), yet setLevel(20) is ignored. -/
theorem setLevel_sparse_store :
    sparseWorld.mLevels.length = 18 ∧
      sparseWorld.slot 17 = none ∧
      sparseWorld.setLevel plainGenerator 17 = none ∧
      (sparseWorld.slot 20).isSome = true ∧
      sparseWorld.getCurrentLevel.map GameLevel.levelIndex = some 0 ∧
      sparseWorld.setLevel plainGenerator 20 = some (sparseWorld, []) :=
  ⟨rfl, rfl, rfl, rfl, rfl, rfl⟩

/-- C12, amended. With a current player whose level pointer is null or valid:
an index that is negative or not smaller than the number of slots is ignored
(world unchanged, no music); an index from 0 up to the number of slots that has
a slot and is not the index of the current level moves the current player to
the up-stairs tile of the level in that slot and plays its music; and when the
keys of the store are 0 .. n-1 the ignored indices are exactly those without a
slot. -/
theorem setLevel_guard_by_slot_count (generate : LevelGenerator) (w : World) (player : Player)
    (hcur : w.mCurrentPlayer = some player)
    (hsize : w.mLevels.length < 2147483648)
    (hvalid : player.level = none ∨
      ∃ key current, player.level = some key ∧ w.levelAt key = some current) :
    (∀ levelNum : Int, (levelNum < 0 ∨ (w.mLevels.length : Int) ≤ levelNum) →
      w.setLevel generate levelNum = some (w, [])) ∧
    (∀ levelNum : Int, 0 ≤ levelNum → levelNum < w.mLevels.length → w.slot levelNum ≠ none →
      (∀ key current, player.level = some key → w.levelAt key = some current →
        current.levelIndex ≠ levelNum) →
      ∃ w' level events,
        w.setLevel generate levelNum = some (w', events ++ [playLevelMusic levelNum.toNat]) ∧
        w'.slot levelNum = some (some level) ∧
        w'.mCurrentPlayer = some (player.teleport levelNum
          ⟨(wrap32 level.upStairsPos.1, wrap32 level.upStairsPos.2)⟩)) ∧
    (DenseKeys w.mLevels →
      ∀ levelNum : Int, w.slot levelNum = none ↔
        (levelNum < 0 ∨ (w.mLevels.length : Int) ≤ levelNum)) := by
  refine ⟨fun levelNum h => setLevel_ignored generate w levelNum hsize h, ?_,
    fun hd levelNum => slot_none_of_dense w levelNum hd⟩
  intro levelNum h0 h1 hslot hne
  have hnot : player.level = none ∨
      ∃ key current, player.level = some key ∧ w.levelAt key = some current ∧
        current.levelIndex ≠ levelNum := by
    rcases hvalid with h | ⟨key, current, hk, hl⟩
    · exact Or.inl h
    · exact Or.inr ⟨key, current, hk, hl, hne key current hk hl⟩
  obtain ⟨w', level, events, h2, h3, _, h5, _⟩ :=
    setLevel_moves generate w player levelNum hcur hsize h0 h1 hslot hnot
  exact ⟨w', level, events, h2, h3, h5⟩

/-- Witness for C12: the world after generateLevels, the player in the town;
index 17 is ignored and index 16 is entered at its up-stairs tile. -/
theorem setLevel_guard_by_slot_count_witness :
    townWorld.mCurrentPlayer = some townPlayer ∧
      townWorld.setLevel plainGenerator 17 = some (townWorld, []) ∧
      ∃ w' level events,
        townWorld.setLevel plainGenerator 16 = some (w', events ++ [playLevelMusic 16]) ∧
        w'.slot 16 = some (some level) ∧
        w'.mCurrentPlayer = some (townPlayer.teleport 16
          ⟨(wrap32 level.upStairsPos.1, wrap32 level.upStairsPos.2)⟩) :=
  have h := setLevel_guard_by_slot_count plainGenerator townWorld townPlayer rfl (by decide)
    (Or.inr ⟨0, emptyLevel 0 (fun _ _ => true), rfl, rfl⟩)
  ⟨rfl, h.1 17 (by decide),
   h.2.1 16 (by decide) (by decide) (by intro hs; cases hs)
     (by intro key current hk hl
         cases hk
         cases hl
         decide)⟩

theorem changeLevel_of_setLevel (generate : LevelGenerator) (w w1 : World) (up : Bool)
    (current level : GameLevel) (events : List WorldEvent) (p : Player) (key : Int)
    (hgc : w.getCurrentLevel = some current)
    (hset : w.setLevel generate (if up then current.previousLevel else current.nextLevel) =
      some (w1, events))
    (hp : w1.mCurrentPlayer = some p) (hkey : p.level = some key)
    (hcl : w1.getCurrentLevel = some level) :
    w.changeLevel generate up =
      some ({ w1 with mCurrentPlayer := some (p.teleport key
          ⟨(wrap32 (if up then level.downStairsPos else level.upStairsPos).1,
            wrap32 (if up then level.downStairsPos else level.upStairsPos).2)⟩) }, events) := by
  unfold World.changeLevel
  rw [hgc]
  simp only [hset, hp, hkey, hcl]

theorem teleport_teleport (a : Actor) (k : Int) (p q : Position) :
    (a.teleport k p).teleport k q = a.teleport k q := rfl

theorem changeLevel_moves (generate : LevelGenerator) (w : World) (player : Player)
    (key : Int) (current : GameLevel) (up : Bool)
    (hcur : w.mCurrentPlayer = some player) (hkey : player.level = some key)
    (hlevel : w.levelAt key = some current)
    (hsize : w.mLevels.length < 2147483648)
    (h0 : 0 ≤ (if up then current.previousLevel else current.nextLevel))
    (h1 : (if up then current.previousLevel else current.nextLevel) < w.mLevels.length)
    (hslot : w.slot (if up then current.previousLevel else current.nextLevel) ≠ none)
    (hne : current.levelIndex ≠ (if up then current.previousLevel else current.nextLevel)) :
    ∃ w' level events, w.changeLevel generate up = some (w', events) ∧
      w'.slot (if up then current.previousLevel else current.nextLevel) = some (some level) ∧
      w'.mCurrentPlayer = some (player.teleport
        (if up then current.previousLevel else current.nextLevel)
        (if up then ⟨(wrap32 level.downStairsPos.1, wrap32 level.downStairsPos.2)⟩
         else ⟨(wrap32 level.upStairsPos.1, wrap32 level.upStairsPos.2)⟩)) := by
  obtain ⟨w1, level, events, hset, hs, _, hp, _⟩ :=
    setLevel_moves generate w player _ hcur hsize h0 h1 hslot
      (Or.inr ⟨key, current, hkey, hlevel, hne⟩)
  have hlev := levelAt_of_slot w1 _ level hs
  have hcl : w1.getCurrentLevel = some level := by
    simp only [World.getCurrentLevel, hp, World.levelOf, Actor.teleport, hlev]
  have hgc : w.getCurrentLevel = some current := by
    simp only [World.getCurrentLevel, hcur, World.levelOf, hkey, hlevel]
  refine ⟨_, level, _,
    changeLevel_of_setLevel generate w w1 up current level _ _ _ hgc hset hp rfl hcl,
    hs, ?_⟩
  show some _ = some _
  rw [teleport_teleport]
  cases up <;> rfl

theorem changeLevel_invalid (generate : LevelGenerator) (w : World) (player : Player)
    (key : Int) (current : GameLevel) (up : Bool)
    (hcur : w.mCurrentPlayer = some player) (hkey : player.level = some key)
    (hlevel : w.levelAt key = some current)
    (hsize : w.mLevels.length < 2147483648)
    (hout : (if up then current.previousLevel else current.nextLevel) < 0 ∨
      (w.mLevels.length : Int) ≤ (if up then current.previousLevel else current.nextLevel)) :
    w.changeLevel generate up = some ({ w with mCurrentPlayer := some (player.teleport key
        (if up then ⟨(wrap32 current.downStairsPos.1, wrap32 current.downStairsPos.2)⟩
         else ⟨(wrap32 current.upStairsPos.1, wrap32 current.upStairsPos.2)⟩)) }, []) := by
  have hgc : w.getCurrentLevel = some current := by
    simp only [World.getCurrentLevel, hcur, World.levelOf, hkey, hlevel]
  unfold World.changeLevel
  simp only [hgc, setLevel_ignored generate w _ hsize hout, hcur, hkey]
  cases up <;> rfl

/-- C14, counterexample. The town of the sparse store links down to index 20,
which has a slot and is not the current level; changeLevel(down) nevertheless
leaves the player in slot 0, on the town's own up-stairs tile. -/
theorem changeLevel_link_beyond_slot_count :
    sparseWorld.getCurrentLevel.map GameLevel.nextLevel = some 20 ∧
      (sparseWorld.slot 20).isSome = true ∧
      sparseWorld.getCurrentLevel.map GameLevel.levelIndex = some 0 ∧
      (sparseWorld.changeLevel plainGenerator false).map
          (fun r => r.1.mCurrentPlayer.map (fun p => (p.level, p.pos))) =
        some (some (some 0, ⟨(25, 29)⟩)) :=
  ⟨rfl, rfl, rfl, by decide⟩

/-- C14, amended. When the followed link of the current level is an index from 0
up to the number of slots that has a slot and differs from the index of the
current level, changeLevel leaves the current player on the level in that slot,
at its down-stairs tile when moving up and at its up-stairs tile when moving
down. -/
theorem changeLevel_arrives_at_opposite_stairs (generate : LevelGenerator) (w : World)
    (player : Player) (key : Int) (current : GameLevel) (up : Bool)
    (hcur : w.mCurrentPlayer = some player) (hkey : player.level = some key)
    (hlevel : w.levelAt key = some current)
    (hsize : w.mLevels.length < 2147483648)
    (h0 : 0 ≤ (if up then current.previousLevel else current.nextLevel))
    (h1 : (if up then current.previousLevel else current.nextLevel) < w.mLevels.length)
    (hslot : w.slot (if up then current.previousLevel else current.nextLevel) ≠ none)
    (hne : current.levelIndex ≠ (if up then current.previousLevel else current.nextLevel)) :
    ∃ w' level events, w.changeLevel generate up = some (w', events) ∧
      w'.slot (if up then current.previousLevel else current.nextLevel) = some (some level) ∧
      w'.mCurrentPlayer = some (player.teleport
        (if up then current.previousLevel else current.nextLevel)
        (if up then ⟨(wrap32 level.downStairsPos.1, wrap32 level.downStairsPos.2)⟩
         else ⟨(wrap32 level.upStairsPos.1, wrap32 level.upStairsPos.2)⟩)) :=
  changeLevel_moves generate w player key current up hcur hkey hlevel hsize h0 h1 hslot hne

/-- Witness for C14: moving down from the town of the generated store. -/
theorem changeLevel_arrives_at_opposite_stairs_witness :
    townWorld.mCurrentPlayer = some townPlayer ∧
      ∃ w' level events, townWorld.changeLevel plainGenerator false = some (w', events) ∧
        w'.slot 1 = some (some level) ∧
        w'.mCurrentPlayer = some (townPlayer.teleport 1
          ⟨(wrap32 level.upStairsPos.1, wrap32 level.upStairsPos.2)⟩) :=
  ⟨rfl, changeLevel_arrives_at_opposite_stairs plainGenerator townWorld townPlayer 0
     (emptyLevel 0 (fun _ _ => true)) false rfl rfl rfl (by decide) (by decide) (by decide)
     (by intro hs; cases hs) (by decide)⟩

/-- C15, the code at the failing input. In the town the up link is -1, an
out-of-range index; changeLevel(up) keeps the player in slot 0 but moves it
from (10, 10) to the town's down-stairs tile (75, 68). -/
theorem changeLevel_invalid_link_moves_player :
    townWorld.getCurrentLevel.map GameLevel.previousLevel = some (-1) ∧
      townWorld.mCurrentPlayer.map (fun p => (p.level, p.pos)) =
        some (some 0, ⟨(10, 10)⟩) ∧
      (townWorld.changeLevel plainGenerator true).map
          (fun r => (r.1.mCurrentPlayer.map (fun p => (p.level, p.pos)), r.2)) =
        some (some (some 0, ⟨(75, 68)⟩), []) :=
  ⟨rfl, by decide, by decide⟩

/-! ## Theorems: behaviour, continued -/

theorem findNearestPlayerLoop_split (actor : Actor) (l : List Player) (nearest : Option Player)
    (minDistance : Int) (p : Player)
    (h : findNearestPlayerLoop actor l nearest minDistance = some p) :
    (∃ pre post, l = pre ++ p :: post ∧ squaredDistance p.pos actor.pos < minDistance ∧
        (∀ q ∈ pre, squaredDistance p.pos actor.pos < squaredDistance q.pos actor.pos) ∧
        (∀ q ∈ post, squaredDistance p.pos actor.pos ≤ squaredDistance q.pos actor.pos)) ∨
      (nearest = some p ∧ ∀ q ∈ l, minDistance ≤ squaredDistance q.pos actor.pos) := by
  induction l generalizing nearest minDistance with
  | nil => right; simpa [findNearestPlayerLoop] using h
  | cons a rest ih =>
    simp only [findNearestPlayerLoop] at h
    by_cases hlt : squaredDistance a.pos actor.pos < minDistance
    · simp only [hlt, if_true] at h
      left
      rcases ih _ _ h with ⟨pre, post, h1, h2, h3, h4⟩ | ⟨h1, h3⟩
      · refine ⟨a :: pre, post, by rw [h1]; rfl, by omega, ?_, h4⟩
        intro q hq
        rcases List.mem_cons.mp hq with rfl | hq
        · exact h2
        · exact h3 q hq
      · cases h1
        exact ⟨[], rest, rfl, hlt, by simp, h3⟩
    · simp only [hlt, if_false] at h
      rcases ih _ _ h with ⟨pre, post, h1, h2, h3, h4⟩ | ⟨h1, h3⟩
      · left
        refine ⟨a :: pre, post, by rw [h1]; rfl, h2, ?_, h4⟩
        intro q hq
        rcases List.mem_cons.mp hq with rfl | hq
        · omega
        · exact h3 q hq
      · right
        refine ⟨h1, ?_⟩
        intro q hq
        rcases List.mem_cons.mp hq with rfl | hq
        · omega
        · exact h3 q hq

theorem squaredDistance_small (a b : Position) (ha : a.Small) (hb : b.Small) :
    squaredDistance a b = squaredEuclidean a b := by
  obtain ⟨a1, a2, a3, a4⟩ := ha
  obtain ⟨b1, b2, b3, b4⟩ := hb
  unfold squaredDistance squaredEuclidean abs32
  have hx : wrap32 (a.current.1 - b.current.1) = a.current.1 - b.current.1 := by
    unfold wrap32; omega
  have hy : wrap32 (a.current.2 - b.current.2) = a.current.2 - b.current.2 := by
    unfold wrap32; omega
  simp only [hx, hy]
  have hax : wrap32 (Int.ofNat (a.current.1 - b.current.1).natAbs) =
      |a.current.1 - b.current.1| := by
    rw [Int.ofNat_eq_coe, Int.natCast_natAbs]
    have : |a.current.1 - b.current.1| ≤ 32766 := by rw [abs_le]; constructor <;> omega
    have : 0 ≤ |a.current.1 - b.current.1| := abs_nonneg _
    unfold wrap32; omega
  have hay : wrap32 (Int.ofNat (a.current.2 - b.current.2).natAbs) =
      |a.current.2 - b.current.2| := by
    rw [Int.ofNat_eq_coe, Int.natCast_natAbs]
    have : |a.current.2 - b.current.2| ≤ 32766 := by rw [abs_le]; constructor <;> omega
    have : 0 ≤ |a.current.2 - b.current.2| := abs_nonneg _
    unfold wrap32; omega
  rw [hax, hay, abs_mul_abs_self, abs_mul_abs_self]
  have bx : (a.current.1 - b.current.1) * (a.current.1 - b.current.1) ≤ 32766 * 32766 := by
    have h1 : |a.current.1 - b.current.1| ≤ 32766 := by rw [abs_le]; constructor <;> omega
    calc (a.current.1 - b.current.1) * (a.current.1 - b.current.1)
        = |a.current.1 - b.current.1| * |a.current.1 - b.current.1| := (abs_mul_abs_self _).symm
      _ ≤ 32766 * 32766 := mul_le_mul h1 h1 (abs_nonneg _) (by norm_num)
  have by' : (a.current.2 - b.current.2) * (a.current.2 - b.current.2) ≤ 32766 * 32766 := by
    have h1 : |a.current.2 - b.current.2| ≤ 32766 := by rw [abs_le]; constructor <;> omega
    calc (a.current.2 - b.current.2) * (a.current.2 - b.current.2)
        = |a.current.2 - b.current.2| * |a.current.2 - b.current.2| := (abs_mul_abs_self _).symm
      _ ≤ 32766 * 32766 := mul_le_mul h1 h1 (abs_nonneg _) (by norm_num)
  have nx : 0 ≤ (a.current.1 - b.current.1) * (a.current.1 - b.current.1) := mul_self_nonneg _
  have ny : 0 ≤ (a.current.2 - b.current.2) * (a.current.2 - b.current.2) := mul_self_nonneg _
  generalize (a.current.1 - b.current.1) * (a.current.1 - b.current.1) = X at bx nx ⊢
  generalize (a.current.2 - b.current.2) * (a.current.2 - b.current.2) = Y at by' ny ⊢
  unfold wrap32
  omega

/-- C16. For positions small enough for the distance arithmetic to be exact, the
player returned by findNearestPlayer splits the roster into the players before
it and those after it: no roster player is strictly nearer in squared Euclidean
distance, and every player enumerated before it is strictly farther, so every
other player at the same distance comes after it. -/
theorem nearest_player_is_first_minimum (l : List Player) (actor : Actor) (p : Player)
    (hfind : findNearestPlayer l actor = some p)
    (hactor : actor.pos.Small) (hroster : ∀ q ∈ l, q.pos.Small) :
    ∃ pre post, l = pre ++ p :: post ∧
      (∀ q ∈ l, squaredEuclidean p.pos actor.pos ≤ squaredEuclidean q.pos actor.pos) ∧
      (∀ q ∈ pre, squaredEuclidean p.pos actor.pos < squaredEuclidean q.pos actor.pos) := by
  rcases findNearestPlayerLoop_split actor l none 99999999 p hfind with
    ⟨pre, post, h1, _, h3, h4⟩ | ⟨h1, _⟩
  · have hp : p ∈ l := by rw [h1]; simp
    have e : ∀ q ∈ l, squaredDistance q.pos actor.pos = squaredEuclidean q.pos actor.pos :=
      fun q hq => squaredDistance_small q.pos actor.pos (hroster q hq) hactor
    refine ⟨pre, post, h1, ?_, ?_⟩
    · intro q hq
      rw [← e p hp, ← e q hq]
      rw [h1] at hq
      rcases List.mem_append.mp hq with hq | hq
      · exact le_of_lt (h3 q hq)
      · rcases List.mem_cons.mp hq with rfl | hq
        · exact le_refl _
        · exact h4 q hq
    · intro q hq
      have hql : q ∈ l := by rw [h1]; exact List.mem_append_left _ hq
      rw [← e p hp, ← e q hql]
      exact h3 q hq
  · cases h1

/-- Witness for C16: two players at squared distance 1 and one at distance 4; the
first of the two nearest is returned. -/
theorem nearest_player_is_first_minimum_witness :
    findNearestPlayer [actorAt 3 2 0, actorAt 1 1 0, actorAt 2 (-1) 0] (actorAt 7 0 0) =
        some (actorAt 1 1 0) ∧
      ∃ pre post, [actorAt 3 2 0, actorAt 1 1 0, actorAt 2 (-1) 0] = pre ++ actorAt 1 1 0 :: post ∧
        (∀ q ∈ [actorAt 3 2 0, actorAt 1 1 0, actorAt 2 (-1) 0],
          squaredEuclidean (actorAt 1 1 0).pos (actorAt 7 0 0).pos ≤
            squaredEuclidean q.pos (actorAt 7 0 0).pos) ∧
        (∀ q ∈ pre, squaredEuclidean (actorAt 1 1 0).pos (actorAt 7 0 0).pos <
          squaredEuclidean q.pos (actorAt 7 0 0).pos) :=
  ⟨by decide,
   nearest_player_is_first_minimum [actorAt 3 2 0, actorAt 1 1 0, actorAt 2 (-1) 0]
     (actorAt 7 0 0) (actorAt 1 1 0) (by decide) (by unfold Position.Small; decide)
     (by
       intro q hq
       simp only [List.mem_cons, List.mem_singleton, List.not_mem_nil, or_false] at hq
       rcases hq with rfl | rfl | rfl <;> (unfold Position.Small; decide))⟩

theorem offset_bounds (d1 d2 : Int) (h1 : 0 ≤ d1) (h2 : 0 ≤ d2) :
    -3 ≤ (Int.tmod d1 3 - 1) * (Int.tmod d2 3 + 1) ∧
      (Int.tmod d1 3 - 1) * (Int.tmod d2 3 + 1) ≤ 3 := by
  rw [Int.tmod_eq_emod h1 (by norm_num), Int.tmod_eq_emod h2 (by norm_num)]
  have a1 : d1 % 3 = 0 ∨ d1 % 3 = 1 ∨ d1 % 3 = 2 := by omega
  have a2 : d2 % 3 = 0 ∨ d2 % 3 = 1 ∨ d2 % 3 = 2 := by omega
  rcases a1 with h | h | h <;> rcases a2 with h' | h' | h' <;> rw [h, h'] <;> norm_num

theorem wanderCandidate_offset (rng : RandLCG) (current : Int × Int) (r : Int)
    (hdraw : ∀ s, 0 ≤ (rng.get s).1)
    (hx : -2147483645 ≤ current.1 ∧ current.1 ≤ 2147483644)
    (hy : -2147483645 ≤ current.2 ∧ current.2 ≤ 2147483644) :
    -3 ≤ (wanderCandidate rng current r).1.1 - current.1 ∧
      (wanderCandidate rng current r).1.1 - current.1 ≤ 3 ∧
      -3 ≤ (wanderCandidate rng current r).1.2 - current.2 ∧
      (wanderCandidate rng current r).1.2 - current.2 ≤ 3 := by
  simp only [wanderCandidate]
  have ox := offset_bounds (rng.get r).1 (rng.get (rng.get r).2).1 (hdraw _) (hdraw _)
  have oy := offset_bounds (rng.get (rng.get (rng.get r).2).2).1
    (rng.get (rng.get (rng.get (rng.get r).2).2).2).1 (hdraw _) (hdraw _)
  generalize (Int.tmod (rng.get r).1 3 - 1) * (Int.tmod (rng.get (rng.get r).2).1 3 + 1) = X
    at ox ⊢
  generalize (Int.tmod (rng.get (rng.get (rng.get r).2).2).1 3 - 1) *
    (Int.tmod (rng.get (rng.get (rng.get (rng.get r).2).2).2).1 3 + 1) = Y at oy ⊢
  unfold wrap32
  omega

/-- C17, counterexample. All draws are non-negative; the draws 2, 2 give the
offset (2 mod 3 - 1) * (2 mod 3 + 1) = 3 on each axis, so the first candidate of
the actor at (0, 0) is (3, 3), and update makes it the destination. -/
theorem wander_offset_three :
    (∀ s, 0 ≤ ((scriptedRng [81, 2, 2, 2, 2]).get s).1) ∧
      nthCandidate (scriptedRng [81, 2, 2, 2, 2]) (0, 0) 0 1 = (3, 3) ∧
      BasicMonsterBehaviour.update (scriptedRng [81, 2, 2, 2, 2]) 63
          (worldWith (fun _ _ => true) [actorAt 1 10 0]) ⟨70, actorAt 7 0 0⟩ =
        some ⟨⟨0, { actorAt 7 0 0 with mMoveHandler := ⟨false, (3, 3)⟩ }⟩, [(3, 3)]⟩ := by
  refine ⟨?_, by decide, by decide⟩
  intro s
  simp only [scriptedRng]
  generalize s.toNat = n
  rcases n with _ | _ | _ | _ | _ | n <;> simp [List.getD]

/-- C17, amended. For non-negative draws and a current position at least 3 away
from the limits of int32, every candidate wander destination differs from the
current position by an offset between -3 and 3 on each axis. -/
theorem wander_offset_within_three (rng : RandLCG) (current : Int × Int)
    (hdraw : ∀ s, 0 ≤ (rng.get s).1)
    (hx : -2147483645 ≤ current.1 ∧ current.1 ≤ 2147483644)
    (hy : -2147483645 ≤ current.2 ∧ current.2 ≤ 2147483644) (k : Nat) (r : Int) :
    -3 ≤ (nthCandidate rng current k r).1 - current.1 ∧
      (nthCandidate rng current k r).1 - current.1 ≤ 3 ∧
      -3 ≤ (nthCandidate rng current k r).2 - current.2 ∧
      (nthCandidate rng current k r).2 - current.2 ≤ 3 := by
  induction k generalizing r with
  | zero => exact wanderCandidate_offset rng current r hdraw hx hy
  | succ n ih => exact ih _

/-- Witness for C17: the generator that always draws 2, whose candidates all lie
at offset (3, 3). -/
theorem wander_offset_within_three_witness :
    (∀ s, 0 ≤ ((⟨fun s => s, fun s => (2, s + 1)⟩ : RandLCG).get s).1) ∧
      -3 ≤ (nthCandidate ⟨fun s => s, fun s => (2, s + 1)⟩ (5, 7) 4 0).1 - 5 ∧
      (nthCandidate ⟨fun s => s, fun s => (2, s + 1)⟩ (5, 7) 4 0).1 - 5 ≤ 3 ∧
      -3 ≤ (nthCandidate ⟨fun s => s, fun s => (2, s + 1)⟩ (5, 7) 4 0).2 - 7 ∧
      (nthCandidate ⟨fun s => s, fun s => (2, s + 1)⟩ (5, 7) 4 0).2 - 7 ≤ 3 :=
  ⟨fun _ => (by decide : (0 : Int) ≤ 2),
   wander_offset_within_three ⟨fun s => s, fun s => (2, s + 1)⟩ (5, 7) (fun _ => (by decide : (0 : Int) ≤ 2))
     (by decide) (by decide) 4 0⟩

theorem update_of_wanderReached (rng : RandLCG) (ticksInPeriod : Int) (w : World)
    (b : BasicMonsterBehaviour) (level : GameLevel)
    (hlevel : w.levelOf b.mActor = some level)
    (hreach : wanderReached ticksInPeriod w b = true) :
    ∃ r, BasicMonsterBehaviour.update rng ticksInPeriod w b = some r ∧
      r.setDestinationCalls =
        (wanderDecision rng level.isPassable (b.mTicksSinceLastAction + 1) b.mActor).toList := by
  unfold wanderReached at hreach
  unfold BasicMonsterBehaviour.update wanderDecision
  cases hnear : findNearestPlayer w.getPlayers b.mActor with
  | none => simp [hnear] at hreach
  | some nearest =>
    simp only [hnear, Bool.and_eq_true, Bool.not_eq_true', decide_eq_true_eq] at hreach
    obtain ⟨hd, ⟨⟨⟨⟨h1, h2⟩, h3⟩, h4⟩, h5⟩⟩ := hreach
    have h1' : ¬ squaredDistance nearest.pos b.mActor.pos ≤ 25 := by omega
    have h2' : ¬ squaredDistance nearest.pos b.mActor.pos ≥ 10000 := by omega
    simp only [hnear, hd, hlevel, h1', h2', h3, h4, h5, Bool.not_false, if_true, if_false,
      decide_True, Bool.and_self]
    by_cases hdraw : Int.tmod (rng.get (rng.seed
        (b.mTicksSinceLastAction + 1 + b.mActor.id + b.mActor.pos.current.1))).1 100 > 80
    · simp only [hdraw, if_true]
      split <;> simp
    · simp [hdraw]

/-- C18, counterexample. Two runs with the same counter (70), the same actor id
(7), the same X coordinate (0), the same passability and the same generator,
the actors standing at (0, 0) and (0, 5): the destinations are (1, 1) and
(1, 6). -/
theorem wander_depends_on_y :
    BasicMonsterBehaviour.update (scriptedRng [81, 2, 0, 2, 0]) 63
        (worldWith (fun _ _ => true) [actorAt 1 10 0]) ⟨70, actorAt 7 0 0⟩ =
      some ⟨⟨0, { actorAt 7 0 0 with mMoveHandler := ⟨false, (1, 1)⟩ }⟩, [(1, 1)]⟩ ∧
    BasicMonsterBehaviour.update (scriptedRng [81, 2, 0, 2, 0]) 63
        (worldWith (fun _ _ => true) [actorAt 1 10 0]) ⟨70, actorAt 7 0 5⟩ =
      some ⟨⟨0, { actorAt 7 0 5 with mMoveHandler := ⟨false, (1, 6)⟩ }⟩, [(1, 6)]⟩ ∧
    wanderDecision (scriptedRng [81, 2, 0, 2, 0]) (fun _ _ => true) 71 (actorAt 7 0 0) ≠
      wanderDecision (scriptedRng [81, 2, 0, 2, 0]) (fun _ _ => true) 71 (actorAt 7 0 5) :=
  ⟨by decide, by decide, by decide⟩

/-- C18, amended. Two runs of the wander decision with equal counter, equal actor
id, equal current position (X and Y) and equal passability take the same
decision; and when both calls of update reach the wander decision they make
the same setDestination calls, which are that decision. -/
theorem wander_deterministic (rng : RandLCG) (ticksInPeriod₁ ticksInPeriod₂ : Int)
    (w₁ w₂ : World) (b₁ b₂ : BasicMonsterBehaviour) (level₁ level₂ : GameLevel)
    (hl₁ : w₁.levelOf b₁.mActor = some level₁) (hl₂ : w₂.levelOf b₂.mActor = some level₂)
    (hticks : b₁.mTicksSinceLastAction = b₂.mTicksSinceLastAction)
    (hid : b₁.mActor.id = b₂.mActor.id)
    (hpos : b₁.mActor.pos.current = b₂.mActor.pos.current)
    (hpass : ∀ x y, level₁.isPassable x y = level₂.isPassable x y) :
    wanderDecision rng level₁.isPassable (b₁.mTicksSinceLastAction + 1) b₁.mActor =
      wanderDecision rng level₂.isPassable (b₂.mTicksSinceLastAction + 1) b₂.mActor ∧
    (wanderReached ticksInPeriod₁ w₁ b₁ = true → wanderReached ticksInPeriod₂ w₂ b₂ = true →
      ∃ r₁ r₂, BasicMonsterBehaviour.update rng ticksInPeriod₁ w₁ b₁ = some r₁ ∧
        BasicMonsterBehaviour.update rng ticksInPeriod₂ w₂ b₂ = some r₂ ∧
        r₁.setDestinationCalls = r₂.setDestinationCalls ∧
        r₁.setDestinationCalls =
          (wanderDecision rng level₁.isPassable (b₁.mTicksSinceLastAction + 1)
            b₁.mActor).toList) := by
  have hfun : level₁.isPassable = level₂.isPassable :=
    funext fun x => funext fun y => hpass x y
  have hdec : wanderDecision rng level₁.isPassable (b₁.mTicksSinceLastAction + 1) b₁.mActor =
      wanderDecision rng level₂.isPassable (b₂.mTicksSinceLastAction + 1) b₂.mActor := by
    simp only [wanderDecision, hfun, hticks, hid, hpos]
  refine ⟨hdec, ?_⟩
  intro hr₁ hr₂
  obtain ⟨r₁, h1, h1'⟩ := update_of_wanderReached rng ticksInPeriod₁ w₁ b₁ level₁ hl₁ hr₁
  obtain ⟨r₂, h2, h2'⟩ := update_of_wanderReached rng ticksInPeriod₂ w₂ b₂ level₂ hl₂ hr₂
  exact ⟨r₁, r₂, h1, h2, by rw [h1', h2', hdec], h1'⟩

/-- Witness for C18: the same actor in a world with one player and in a world
with two, different thresholds; both runs head for (1, 1). -/
theorem wander_deterministic_witness :
    wanderReached 63 (worldWith (fun _ _ => true) [actorAt 1 10 0]) ⟨70, actorAt 7 0 0⟩ = true ∧
      wanderReached 50 (worldWith (fun _ _ => true) [actorAt 1 10 0, actorAt 2 20 0])
        ⟨70, actorAt 7 0 0⟩ = true ∧
      wanderDecision (scriptedRng [81, 2, 0, 2, 0]) (fun _ _ => true) ((70 : Int) + 1)
        (actorAt 7 0 0) = some (1, 1) ∧
      ∃ r₁ r₂, BasicMonsterBehaviour.update (scriptedRng [81, 2, 0, 2, 0]) 63
            (worldWith (fun _ _ => true) [actorAt 1 10 0]) ⟨70, actorAt 7 0 0⟩ = some r₁ ∧
        BasicMonsterBehaviour.update (scriptedRng [81, 2, 0, 2, 0]) 50
            (worldWith (fun _ _ => true) [actorAt 1 10 0, actorAt 2 20 0])
            ⟨70, actorAt 7 0 0⟩ = some r₂ ∧
        r₁.setDestinationCalls = r₂.setDestinationCalls ∧
        r₁.setDestinationCalls =
          (wanderDecision (scriptedRng [81, 2, 0, 2, 0])
            (emptyLevel 1 (fun _ _ => true)).isPassable ((70 : Int) + 1) (actorAt 7 0 0)).toList :=
  ⟨by decide, by decide, by decide,
   (wander_deterministic (scriptedRng [81, 2, 0, 2, 0]) 63 50
      (worldWith (fun _ _ => true) [actorAt 1 10 0])
      (worldWith (fun _ _ => true) [actorAt 1 10 0, actorAt 2 20 0])
      ⟨70, actorAt 7 0 0⟩ ⟨70, actorAt 7 0 0⟩
      (emptyLevel 1 (fun _ _ => true)) (emptyLevel 1 (fun _ _ => true))
      rfl rfl rfl rfl rfl (fun _ _ => rfl)).2 (by decide) (by decide)⟩

/-- C19. Freeze dominates wandering: for a live actor whose nearest player is at
squared distance above 10000, and any counter value, one call of update leaves
the actor (target and movement handler included) unchanged, makes no
setDestination call and leaves the counter exactly one greater. -/
theorem freeze_dominates_wandering (rng : RandLCG) (ticksInPeriod : Int) (w : World)
    (b : BasicMonsterBehaviour) (nearest : Player) (hlive : b.mActor.dead = false)
    (hnear : findNearestPlayer w.getPlayers b.mActor = some nearest)
    (hdist : squaredDistance nearest.pos b.mActor.pos > 10000) :
    BasicMonsterBehaviour.update rng ticksInPeriod w b =
      some ⟨⟨b.mTicksSinceLastAction + 1, b.mActor⟩, []⟩ := by
  have h1 : ¬ squaredDistance nearest.pos b.mActor.pos ≤ 25 := by omega
  have h2 : squaredDistance nearest.pos b.mActor.pos ≥ 10000 := by omega
  simp [BasicMonsterBehaviour.update, hlive, hnear, h1, h2]

/-- Witness for C19: the only player is 101 tiles away, the counter is above the
wander threshold and the draw would pass. -/
theorem freeze_dominates_wandering_witness :
    findNearestPlayer (worldWith (fun _ _ => true) [actorAt 1 101 0]).getPlayers
        (actorAt 7 0 0) = some (actorAt 1 101 0) ∧
      squaredDistance (actorAt 1 101 0).pos (actorAt 7 0 0).pos = 10201 ∧
      BasicMonsterBehaviour.update (scriptedRng [81]) 63
          (worldWith (fun _ _ => true) [actorAt 1 101 0]) ⟨70, actorAt 7 0 0⟩ =
        some ⟨⟨71, actorAt 7 0 0⟩, []⟩ :=
  ⟨by decide, by decide,
   freeze_dominates_wandering (scriptedRng [81]) 63
     (worldWith (fun _ _ => true) [actorAt 1 101 0]) ⟨70, actorAt 7 0 0⟩ (actorAt 1 101 0)
     (by decide) (by decide) (by decide)⟩

/-! ## Theorems: hover state and mouse input -/

theorem currentHover_some (w : World) (t : HoverState) (h : w.currentHover = some t) :
    ∃ player key level, w.mCurrentPlayer = some player ∧ player.level = some key ∧
      w.levelAt key = some level ∧ level.hoverState = t := by
  unfold World.currentHover World.getCurrentLevel World.levelOf at h
  cases hp : w.mCurrentPlayer with
  | none => simp [hp] at h
  | some player =>
    cases hk : player.level with
    | none => simp [hp, hk] at h
    | some key =>
      cases hl : w.levelAt key with
      | none => simp [hp, hk, hl] at h
      | some level =>
        simp only [hp, hk, hl, Option.some.injEq] at h
        exact ⟨player, key, level, rfl, hk, hl, h⟩

theorem setHover_same (w : World) (t : HoverState) (h : w.currentHover = some t) :
    w.setHover t = some (w, false) := by
  obtain ⟨player, key, level, hp, hk, hl, ht⟩ := currentHover_some w t h
  simp [World.setHover, hp, hk, hl, HoverState.set, ht]

theorem setHover_result (w w' : World) (t : HoverState) (c : Bool)
    (h : w.setHover t = some (w', c)) :
    w'.currentHover = some t ∧ w'.mCurrentPlayer = w.mCurrentPlayer := by
  unfold World.setHover at h
  cases hp : w.mCurrentPlayer with
  | none => simp [hp] at h
  | some player =>
    cases hk : player.level with
    | none => simp [hp, hk] at h
    | some key =>
      cases hl : w.levelAt key with
      | none => simp [hp, hk, hl] at h
      | some level =>
        simp only [hp, hk, hl, HoverState.set] at h
        by_cases hc : level.hoverState = t
        · simp only [hc, ne_eq, not_true_eq_false, decide_False, Bool.false_eq_true, if_false,
            Option.some.injEq, Prod.mk.injEq] at h
          obtain ⟨rfl, _⟩ := h
          refine ⟨?_, hp⟩
          simp only [World.currentHover, World.getCurrentLevel, hp, World.levelOf, hk, hl, hc]
        · simp only [ne_eq, hc, not_false_eq_true, decide_True, if_true, Option.some.injEq,
            Prod.mk.injEq] at h
          obtain ⟨rfl, _⟩ := h
          refine ⟨?_, rfl⟩
          have hfind : ∃ k, w.mLevels.find? (fun p => p.1 == key) = some (k, some level) := by
            unfold World.levelAt at hl
            cases hf : w.mLevels.find? (fun p => p.1 == key) with
            | none => simp [hf] at hl
            | some q =>
              obtain ⟨k, v⟩ := q
              cases v with
              | none => simp [hf] at hl
              | some l =>
                simp only [hf, Option.some.injEq] at hl
                exact ⟨k, by rw [hl]⟩
          obtain ⟨k, hf⟩ := hfind
          have hf2 := find?_setSlot w.mLevels key { level with hoverState := t }
          rw [hf] at hf2
          simp only [World.currentHover, World.getCurrentLevel, hp, World.levelOf, hk,
            World.levelAt, hf2, Option.map_some']

theorem nothingHovered_result (w w' : World) (events : List InputEvent)
    (h : w.nothingHovered = some (w', events)) :
    w'.currentHover = some HoverState.nothing ∧ w'.mCurrentPlayer = w.mCurrentPlayer := by
  unfold World.nothingHovered at h
  cases hs : w.setHover HoverState.nothing with
  | none => simp [hs] at h
  | some r =>
    obtain ⟨w1, c⟩ := r
    simp only [hs, Option.some.injEq, Prod.mk.injEq] at h
    obtain ⟨rfl, _⟩ := h
    exact setHover_result w w1 _ c hs

theorem nothingHovered_same (w : World) (h : w.currentHover = some HoverState.nothing) :
    w.nothingHovered = some (w, []) := by
  simp [World.nothingHovered, setHover_same w _ h]

/-- After `updateHover` the hover state cached on the current level is the target
the call computed, and the current player is the same. -/
theorem updateHover_caches (w w' : World) (tile : Tile) (events : List InputEvent)
    (h : w.updateHover tile = some (w', events)) :
    ∃ t, w.hoverTarget tile = some t ∧ w'.currentHover = some t ∧
      w'.mCurrentPlayer = w.mCurrentPlayer := by
  unfold World.updateHover at h
  unfold World.hoverTarget
  cases hp : w.mCurrentPlayer with
  | none => simp [hp] at h
  | some player =>
    simp only [hp] at h ⊢
    cases hc : player.cursorItem with
    | some name =>
      simp only [hc] at h ⊢
      cases hn : w.nothingHovered with
      | none => simp [hn] at h
      | some r =>
        obtain ⟨w1, e1⟩ := r
        simp only [hn, Option.some.injEq, Prod.mk.injEq] at h
        obtain ⟨rfl, _⟩ := h
        have := nothingHovered_result w w1 e1 hn
        exact ⟨_, rfl, this.1, by rw [this.2, hp]⟩
    | none =>
      simp only [hc] at h ⊢
      cases ha : w.targetedActor tile with
      | none => simp [ha] at h
      | some oa =>
        cases oa with
        | some actor =>
          simp only [ha] at h ⊢
          cases hs : w.setHover (HoverState.actor actor.id) with
          | none => simp [hs] at h
          | some r =>
            obtain ⟨w1, c⟩ := r
            simp only [hs, Option.some.injEq, Prod.mk.injEq] at h
            obtain ⟨rfl, _⟩ := h
            have := setHover_result w w1 _ c hs
            exact ⟨_, rfl, this.1, by rw [this.2, hp]⟩
        | none =>
          simp only [ha] at h ⊢
          cases hi : w.targetedItem tile with
          | none => simp [hi] at h
          | some oi =>
            cases oi with
            | some item =>
              simp only [hi] at h ⊢
              cases hs : w.setHover (HoverState.item item.tile) with
              | none => simp [hs] at h
              | some r =>
                obtain ⟨w1, c⟩ := r
                simp only [hs, Option.some.injEq, Prod.mk.injEq] at h
                obtain ⟨rfl, _⟩ := h
                have := setHover_result w w1 _ c hs
                exact ⟨_, rfl, this.1, by rw [this.2, hp]⟩
            | none =>
              simp only [hi] at h ⊢
              have := nothingHovered_result w w' events h
              exact ⟨_, rfl, this.1, by rw [this.2, hp]⟩

/-- A call of `updateHover` whose computed target is the cached one: without a
cursor item nothing is sent to the GUI, with a cursor item exactly the item
name is sent; the world is unchanged. -/
theorem updateHover_cached (w : World) (tile : Tile) (player : Player) (t : HoverState)
    (hp : w.mCurrentPlayer = some player)
    (ht : w.hoverTarget tile = some t) (hc : w.currentHover = some t) :
    w.updateHover tile = some (w,
      match player.cursorItem with
      | some name => [InputEvent.setDescription name]
      | none => []) := by
  unfold World.hoverTarget at ht
  unfold World.updateHover
  simp only [hp] at ht ⊢
  cases hcur : player.cursorItem with
  | some name =>
    simp only [hcur, Option.some.injEq] at ht ⊢
    subst ht
    simp [nothingHovered_same w hc]
  | none =>
    simp only [hcur] at ht ⊢
    cases ha : w.targetedActor tile with
    | none => simp [ha] at ht
    | some oa =>
      cases oa with
      | some actor =>
        simp only [ha, Option.some.injEq] at ht ⊢
        subst ht
        simp [setHover_same w _ hc]
      | none =>
        simp only [ha] at ht ⊢
        cases hi : w.targetedItem tile with
        | none => simp [hi] at ht
        | some oi =>
          cases oi with
          | some item =>
            simp only [hi, Option.some.injEq] at ht ⊢
            subst ht
            simp [setHover_same w _ hc]
          | none =>
            simp only [hi, Option.some.injEq] at ht ⊢
            subst ht
            exact nothingHovered_same w hc

/-- C13, counterexample. The current player holds a sword on the cursor; two
consecutive calls of updateHover compute the same target (nothing), and the
second call still sends the item name to setDescription. -/
theorem hover_refires_with_cursor_item :
    ∃ w₁ events₁, cursorWorld.updateHover ⟨3, 3, TileHalf.left⟩ = some (w₁, events₁) ∧
      cursorWorld.hoverTarget ⟨3, 3, TileHalf.left⟩ = some HoverState.nothing ∧
      w₁.hoverTarget ⟨3, 3, TileHalf.left⟩ = some HoverState.nothing ∧
      (w₁.updateHover ⟨3, 3, TileHalf.left⟩).map Prod.snd =
        some [InputEvent.setDescription "Sword"] :=
  ⟨_, _, rfl, by decide, by decide, by decide⟩

/-- C13, amended. For two consecutive calls of updateHover that compute the same
hover target: while the current player holds no item on the cursor the second
call makes no GUI call and leaves the world unchanged; while the player holds
an item on the cursor the second call makes exactly one call, setDescription
with the name of that item. -/
theorem hover_dedup_without_cursor_item (w w₁ : World) (tile₁ tile₂ : Tile) (player : Player)
    (events₁ : List InputEvent)
    (hp : w.mCurrentPlayer = some player)
    (hfirst : w.updateHover tile₁ = some (w₁, events₁))
    (hsame : w₁.hoverTarget tile₂ = w.hoverTarget tile₁) :
    (player.cursorItem = none → w₁.updateHover tile₂ = some (w₁, [])) ∧
    (∀ name, player.cursorItem = some name →
      w₁.updateHover tile₂ = some (w₁, [InputEvent.setDescription name])) := by
  obtain ⟨t, h1, h2, h3⟩ := updateHover_caches w w₁ tile₁ events₁ hfirst
  have key := updateHover_cached w₁ tile₂ player t (by rw [h3, hp]) (by rw [hsame, h1]) h2
  constructor
  · intro hc
    rw [key, hc]
  · intro name hc
    rw [key, hc]

/-- Witness for C13: the pointer stays on tile (3, 3), behind which the live actor
9 stands; the first call reports the actor, the second call reports nothing. -/
theorem hover_dedup_without_cursor_item_witness :
    ∃ w₁ events₁, hitTestWorld.updateHover ⟨3, 3, TileHalf.left⟩ = some (w₁, events₁) ∧
      events₁ = [InputEvent.setDescription (actorAt 9 4 4).name] ∧
      w₁.currentHover = some (HoverState.actor 9) ∧
      w₁.updateHover ⟨3, 3, TileHalf.left⟩ = some (w₁, []) :=
  ⟨_, _, rfl, rfl, rfl,
   (hover_dedup_without_cursor_item hitTestWorld _ ⟨3, 3, TileHalf.left⟩
      ⟨3, 3, TileHalf.left⟩ (actorAt 1 10 10) _ rfl rfl (by decide)).1 rfl⟩

theorem targetedActor_isSome (w : World) (tile : Tile) (player : Player) (level : GameLevel)
    (hcur : w.mCurrentPlayer = some player) (hlevel : w.getCurrentLevel = some level) :
    ∃ r, w.targetedActor tile = some r := by
  unfold World.targetedActor
  simp only [hcur, hlevel]
  split
  · exact ⟨_, rfl⟩
  · split
    · exact ⟨_, rfl⟩
    · split
      · exact ⟨_, rfl⟩
      · split
        · exact ⟨_, rfl⟩
        · exact ⟨_, rfl⟩

theorem onMouseDown_returns (dropItem : Player → Int × Int → Player × Bool)
    (isInventoryShown : Bool) (w : World) (clickedTile clickedTileShifted : Tile)
    (player : Player) (level : GameLevel) (hcur : w.mCurrentPlayer = some player)
    (hskip : w.skipNextMousePress = false) (hlevel : w.getCurrentLevel = some level) :
    ∃ w' events,
      w.onMouseDown dropItem isInventoryShown clickedTile clickedTileShifted =
        some (w', events) := by
  obtain ⟨L, P, cp, tp, nid, tl, sm, sk⟩ := w
  simp only at hcur hskip
  subst hcur hskip
  have hl1 : (World.mk L P (some player) tp nid true sm false).getCurrentLevel = some level :=
    hlevel
  obtain ⟨r, hr⟩ := targetedActor_isSome (World.mk L P (some player) tp nid true sm false)
    clickedTile player level rfl hl1
  unfold World.onMouseDown
  simp only [Bool.false_eq_true, if_false]
  split
  · exact ⟨_, _, rfl⟩
  · split
    · rw [hr]
      cases r with
      | some actor => exact ⟨_, _, rfl⟩
      | none =>
        simp only [World.targetedItem, hl1]
        cases level.getItemAt clickedTile.x clickedTile.y with
        | some item => exact ⟨_, _, rfl⟩
        | none => exact ⟨_, _, rfl⟩
    · split
      · exact ⟨_, _, rfl⟩
      · exact ⟨_, _, rfl⟩

theorem onMouseDown_locks (dropItem : Player → Int × Int → Player × Bool)
    (isInventoryShown : Bool) (w w' : World) (clickedTile clickedTileShifted : Tile)
    (events : List InputEvent) (hskip : w.skipNextMousePress = false)
    (h : w.onMouseDown dropItem isInventoryShown clickedTile clickedTileShifted =
      some (w', events)) : w'.targetLock = true := by
  unfold World.onMouseDown at h
  simp only [hskip, Bool.false_eq_true, if_false] at h
  split at h
  · cases h
  · split at h
    · simp only [Option.some.injEq, Prod.mk.injEq] at h
      rw [← h.1]
    · split at h
      · split at h
        · cases h
        · simp only [Option.some.injEq, Prod.mk.injEq] at h
          rw [← h.1]
        · split at h
          · cases h
          · simp only [Option.some.injEq, Prod.mk.injEq] at h
            rw [← h.1]
          · simp only [Option.some.injEq, Prod.mk.injEq] at h
            rw [← h.1]; rfl
      · split at h
        · simp only [Option.some.injEq, Prod.mk.injEq] at h
          rw [← h.1]; rfl
        · simp only [Option.some.injEq, Prod.mk.injEq] at h
          rw [← h.1]

/-- C20. Target lock, for a world with a current player: a skipped onMouseDown
changes nothing; an onMouseDown that is not skipped and returns leaves
targetLock true, and it returns whenever the current level exists; while
targetLock is true an onMouseDown makes no call (no dropItem, no GUI call) and,
when simpleMove is not set, leaves the world as it is, and when simpleMove is
set, changes only the current player, whose target becomes blank and whose
destination becomes the clicked tile, all its other members (the cursor item
included) staying as they are; and onMouseRelease sets targetLock, simpleMove
and skipNextMousePress to false. -/
theorem target_lock_state_machine (dropItem : Player → Int × Int → Player × Bool)
    (isInventoryShown : Bool) (w : World) (clickedTile clickedTileShifted : Tile)
    (player : Player) (hcur : w.mCurrentPlayer = some player) :
    (w.skipNextMousePress = true →
      w.onMouseDown dropItem isInventoryShown clickedTile clickedTileShifted = some (w, [])) ∧
    (w.skipNextMousePress = false →
      (∀ w' events,
        w.onMouseDown dropItem isInventoryShown clickedTile clickedTileShifted =
          some (w', events) → w'.targetLock = true) ∧
      (∀ level, w.getCurrentLevel = some level →
        ∃ w' events,
          w.onMouseDown dropItem isInventoryShown clickedTile clickedTileShifted =
            some (w', events))) ∧
    (w.skipNextMousePress = false → w.targetLock = true →
      (w.simpleMove = false →
        w.onMouseDown dropItem isInventoryShown clickedTile clickedTileShifted =
          some (w, [])) ∧
      (w.simpleMove = true →
        w.onMouseDown dropItem isInventoryShown clickedTile clickedTileShifted =
          some ({ w with mCurrentPlayer := some { player with
                    mTarget := Target.blank,
                    mMoveHandler := ⟨player.mMoveHandler.moving,
                      (clickedTile.x, clickedTile.y)⟩ } }, []))) ∧
    (∃ w', w.onMouseRelease = some w' ∧ w'.targetLock = false ∧ w'.simpleMove = false ∧
      w'.skipNextMousePress = false) := by
  refine ⟨?_, ?_, ?_, ?_⟩
  · intro hskip
    simp [World.onMouseDown, hskip]
  · intro hskip
    refine ⟨fun w' events h => onMouseDown_locks dropItem isInventoryShown w w' clickedTile
      clickedTileShifted events hskip h, ?_⟩
    intro level hlevel
    exact onMouseDown_returns dropItem isInventoryShown w clickedTile clickedTileShifted player
      level hcur hskip hlevel
  · intro hskip hlock
    obtain ⟨L, P, cp, tp, nid, tl, sm, sk⟩ := w
    simp only at hcur hskip hlock
    subst hcur hskip hlock
    constructor
    · intro hsm
      simp only at hsm
      subst hsm
      rfl
    · intro hsm
      simp only at hsm
      subst hsm
      rfl
  · simp [World.onMouseRelease, hcur]

/-- Witness for C20: a press on the live actor behind tile (3, 3) targets it and
locks; the next press, while locked, changes nothing; a press on the same actor
while locked in a simple move clears the target and heads for the clicked tile;
the release unlocks. -/
theorem target_lock_state_machine_witness :
    (∃ w₁, hitTestWorld.onMouseDown dropAlways false ⟨3, 3, TileHalf.left⟩
          ⟨3, 3, TileHalf.left⟩ = some (w₁, []) ∧
      w₁.targetLock = true ∧
      w₁.mCurrentPlayer.map Actor.mTarget = some (Target.actor 9) ∧
      w₁.onMouseDown dropAlways false ⟨30, 30, TileHalf.left⟩ ⟨30, 30, TileHalf.left⟩ =
        some (w₁, []) ∧
      ∃ w₂, w₁.onMouseRelease = some w₂ ∧ w₂.targetLock = false ∧ w₂.simpleMove = false ∧
        w₂.skipNextMousePress = false) ∧
    lockedMoveWorld.onMouseDown dropAlways false ⟨3, 3, TileHalf.left⟩ ⟨3, 3, TileHalf.left⟩ =
      some ({ lockedMoveWorld with mCurrentPlayer := some { actorAt 1 10 10 with
                mTarget := Target.blank, mMoveHandler := ⟨false, (3, 3)⟩ } }, []) :=
  ⟨⟨_, rfl, rfl, by decide,
    ((target_lock_state_machine dropAlways false _ ⟨30, 30, TileHalf.left⟩
      ⟨30, 30, TileHalf.left⟩ { actorAt 1 10 10 with mTarget := Target.actor 9 } rfl).2.2.1
      rfl rfl).1 rfl,
    (target_lock_state_machine dropAlways false _ ⟨30, 30, TileHalf.left⟩
      ⟨30, 30, TileHalf.left⟩ { actorAt 1 10 10 with mTarget := Target.actor 9 } rfl).2.2.2⟩,
   ((target_lock_state_machine dropAlways false lockedMoveWorld ⟨3, 3, TileHalf.left⟩
      ⟨3, 3, TileHalf.left⟩ { actorAt 1 10 10 with mTarget := Target.actor 9 } rfl).2.2.1
      rfl rfl).2 rfl⟩

/-! ## Theorems: presence of the nearest player -/

theorem squaredDistance_inLevel (a b : Position) (ha : a.InLevel) (hb : b.InLevel) :
    squaredDistance a b ≤ 19602 := by
  obtain ⟨a1, a2, a3, a4⟩ := ha
  obtain ⟨b1, b2, b3, b4⟩ := hb
  have hsa : a.Small := ⟨by omega, by omega, by omega, by omega⟩
  have hsb : b.Small := ⟨by omega, by omega, by omega, by omega⟩
  rw [squaredDistance_small a b hsa hsb]
  unfold squaredEuclidean
  have hx : (a.current.1 - b.current.1) * (a.current.1 - b.current.1) ≤ 99 * 99 := by
    nlinarith
  have hy : (a.current.2 - b.current.2) * (a.current.2 - b.current.2) ≤ 99 * 99 := by
    nlinarith
  omega

theorem update_none (rng : RandLCG) (ticksInPeriod : Int) (w : World)
    (b : BasicMonsterBehaviour) (nearest : Player)
    (hnear : findNearestPlayer w.getPlayers b.mActor = some nearest)
    (h : BasicMonsterBehaviour.update rng ticksInPeriod w b = none) :
    w.levelOf b.mActor = none := by
  cases hl : w.levelOf b.mActor with
  | none => rfl
  | some level =>
    exfalso
    unfold BasicMonsterBehaviour.update at h
    simp only [hnear, hl] at h
    repeat' split at h
    all_goals simp at h

/-- C21. The function findNearestPlayer returns no player exactly when the roster
is empty or every roster player is at squared tile distance at least 99999999
from the actor; when the roster is non-empty and the positions of its players
and of the actor lie inside a 100 by 100 level, a nearest player is returned,
and update can then dereference a null pointer only through the actor's level. -/
theorem nearest_player_present (rng : RandLCG) (ticksInPeriod : Int) (w : World)
    (b : BasicMonsterBehaviour) :
    (findNearestPlayer w.getPlayers b.mActor = none ↔
        w.getPlayers = [] ∨
          ∀ q ∈ w.getPlayers, 99999999 ≤ squaredDistance q.pos b.mActor.pos) ∧
      (w.getPlayers ≠ [] → (∀ q ∈ w.getPlayers, q.pos.InLevel) → b.mActor.pos.InLevel →
        (∃ nearest, findNearestPlayer w.getPlayers b.mActor = some nearest) ∧
          (BasicMonsterBehaviour.update rng ticksInPeriod w b = none →
            w.levelOf b.mActor = none)) := by
  have hiff : findNearestPlayer w.getPlayers b.mActor = none ↔
      w.getPlayers = [] ∨
        ∀ q ∈ w.getPlayers, 99999999 ≤ squaredDistance q.pos b.mActor.pos := by
    rw [findNearestPlayer_none]
    constructor
    · exact fun h => Or.inr h
    · rintro (h | h)
      · rw [h]; exact fun q hq => absurd hq (List.not_mem_nil q)
      · exact h
  refine ⟨hiff, fun hne hall hact => ?_⟩
  have hsome : ∃ nearest, findNearestPlayer w.getPlayers b.mActor = some nearest := by
    cases hf : findNearestPlayer w.getPlayers b.mActor with
    | some nearest => exact ⟨nearest, rfl⟩
    | none =>
      exfalso
      rcases hiff.mp hf with h | h
      · exact hne h
      · obtain ⟨q, hq⟩ := List.exists_mem_of_ne_nil _ hne
        have h1 := h q hq
        have h2 := squaredDistance_inLevel q.pos b.mActor.pos (hall q hq) hact
        omega
  obtain ⟨nearest, hnear⟩ := hsome
  exact ⟨⟨nearest, hnear⟩, update_none rng ticksInPeriod w b nearest hnear⟩

/-- Witness for C21: two players and an actor inside the level; the nearer
player is returned. -/
theorem nearest_player_present_witness :
    (worldWith (fun _ _ => true) [actorAt 1 99 99, actorAt 2 20 0]).getPlayers ≠ [] ∧
      (∀ q ∈ (worldWith (fun _ _ => true) [actorAt 1 99 99, actorAt 2 20 0]).getPlayers,
        q.pos.InLevel) ∧
      (actorAt 7 0 0).pos.InLevel ∧
      (∃ nearest,
        findNearestPlayer (worldWith (fun _ _ => true) [actorAt 1 99 99, actorAt 2 20 0]).getPlayers
          (actorAt 7 0 0) = some nearest) :=
  ⟨by decide,
   by
    intro q hq
    simp only [World.getPlayers, worldWith, List.mem_cons, List.mem_singleton,
      List.not_mem_nil, or_false] at hq
    rcases hq with rfl | rfl <;> decide,
   by decide,
   ((nearest_player_present (scriptedRng [81]) 63
      (worldWith (fun _ _ => true) [actorAt 1 99 99, actorAt 2 20 0]) ⟨70, actorAt 7 0 0⟩).2
      (by decide)
      (by
        intro q hq
        simp only [World.getPlayers, worldWith, List.mem_cons, List.mem_singleton,
          List.not_mem_nil, or_false] at hq
        rcases hq with rfl | rfl <;> decide)
      (by decide)).1⟩

end FAWorld
